import Mathlib

/-!
# Verification of the core-courses notation parser and occurrence materializer

This file is a shallow embedding, in Lean 4, of the core of the
`one-zero-eight/parsers` repository:

* `src/core_courses/location_parser.py` — the notation parser
  (`parse_location_string` and its helpers) that turns a free-text location
  string into a structured `Item` tree;
* `src/core_courses/event_to_ical.py` — the occurrence materializer
  (`generate_vevents`, `convert_weeks_on_to_only_on`) that combines a
  `CoreCourseEvent` timetable slot with the parsed `Item` tree and produces
  icalendar events;
* `src/utils.py` — the `nearest_weekday` date helper.

Modelling conventions:

* Python `datetime.date` values are modelled as `Int` day numbers
  (days since 1970-01-01, proleptic Gregorian).  `civilToDays`/`daysToCivil`
  convert between day numbers and (year, month, day) triples; `date`
  construction validates exactly like CPython (`1 ≤ year ≤ 9999`, month and
  day ranges), and an invalid construction — which raises `ValueError` in
  Python — is modelled as `Except.error ()`.
* Python `datetime.time` values are modelled as `Int` minutes-of-day
  (the code only ever constructs times from hour and minute);
  `datetime.datetime` is a `DateTime` pair of a day number and minutes.
  The fixed-offset timezone (`MOSCOW_TZ`) never affects any arithmetic the
  code performs, so it is not represented.
* Functions that can raise return `Except Unit _`; `Except.error ()` marks a
  raised `ValueError` (or, in two spots of the parser, an `AttributeError`
  on `None` that the corresponding Python lines would raise).
* `generate_vevents` mutates `event.location_item` in place in Python; the
  embedding returns the final state of the tree as the second component of
  its result.
* Fields of the generated icalendar events that carry only display or
  identity metadata (summary, description, color, dtstamp, x-wr-link and the
  crc32-derived part of the uid) are not represented; the `sequence` prefix
  of `get_uid` is kept as `uid_seq` because it distinguishes the root event
  from independent nested events.
-/

namespace Parsers

/-! ## Calendar dates (model of `datetime.date`) -/

/-- Gregorian leap-year test (as in CPython's `datetime`). -/
def isLeap (y : Int) : Bool := (y % 4 == 0 && y % 100 != 0) || y % 400 == 0

/-- Number of days in a month. -/
def daysInMonth (y m : Int) : Int :=
  if m = 2 then (if isLeap y then 29 else 28)
  else if m = 4 ∨ m = 6 ∨ m = 9 ∨ m = 11 then 30
  else 31

/-- A (year, month, day) triple. -/
structure Ymd where
  year : Int
  month : Int
  day : Int
deriving Repr, DecidableEq

/-- Day number (days since 1970-01-01) of a civil date, proleptic Gregorian. -/
def civilToDays (y m d : Int) : Int :=
  let y' := if m ≤ 2 then y - 1 else y
  let era := y' / 400
  let yoe := y' - era * 400
  let mp  := if 2 < m then m - 3 else m + 9
  let doy := (153 * mp + 2) / 5 + d - 1
  let doe := yoe * 365 + yoe / 4 - yoe / 100 + doy
  era * 146097 + doe - 719468

/-- Civil date of a day number, inverse of `civilToDays`. -/
def daysToCivil (z : Int) : Ymd :=
  let z' := z + 719468
  let era := z' / 146097
  let doe := z' - era * 146097
  let yoe := (doe - doe / 1460 + doe / 36524 - doe / 146096) / 365
  let y := yoe + era * 400
  let doy := doe - (365 * yoe + yoe / 4 - yoe / 100)
  let mp := (5 * doy + 2) / 153
  let d := doy - (153 * mp + 2) / 5 + 1
  let m := if mp < 10 then mp + 3 else mp - 9
  if m ≤ 2 then ⟨y + 1, m, d⟩ else ⟨y, m, d⟩

def yearOf (z : Int) : Int := (daysToCivil z).year
def monthOf (z : Int) : Int := (daysToCivil z).month
def dayOf (z : Int) : Int := (daysToCivil z).day

/-- Validity check performed by the `datetime.date` constructor. -/
def validYmd (y m d : Int) : Bool :=
  1 ≤ y && y ≤ 9999 && 1 ≤ m && m ≤ 12 && 1 ≤ d && d ≤ daysInMonth y m

/-- `datetime.date(year, month, day)`: raises `ValueError` on invalid input. -/
def mkDate (y m d : Int) : Except Unit Int :=
  if validYmd y m d then .ok (civilToDays y m d) else .error ()

/-- `datetime.time(hour, minute)`: raises `ValueError` on invalid input.
The value is minutes of day. -/
def mkTime (h mi : Int) : Except Unit Int :=
  if 0 ≤ h ∧ h ≤ 23 ∧ 0 ≤ mi ∧ mi ≤ 59 then .ok (h * 60 + mi) else .error ()

/-- Python `date.weekday()`: Monday = 0 … Sunday = 6.
Day number 0 (1970-01-01) was a Thursday. -/
def pyWeekday (z : Int) : Int := (z + 3) % 7

/-- `src/utils.py::nearest_weekday` (integer-weekday branch):
`days = (day - date.weekday() + 7) % 7; return date + timedelta(days=days)`. -/
def nearest_weekday (date : Int) (day : Int) : Int :=
  date + (day - pyWeekday date + 7) % 7

/-! ## Times and datetimes -/

/-- Model of `datetime.datetime`: a day number plus minutes of day. -/
structure DateTime where
  date : Int
  mins : Int
deriving Repr, DecidableEq

/-- `datetime + timedelta(minutes = k)` (normalizing, floor semantics). -/
def addMins (dt : DateTime) (k : Int) : DateTime :=
  let t := dt.mins + k
  ⟨dt.date + t / 1440, t % 1440⟩

/-- Difference of two datetimes, in minutes. -/
def dtMinus (a b : DateTime) : Int :=
  (a.date - b.date) * 1440 + (a.mins - b.mins)

/-- `datetime.replace(day = dayOf o, month = monthOf o)` on the date part:
keeps the year of `base`, takes month and day from the date `o`, and raises
`ValueError` when the combination is invalid for that year. -/
def pyReplaceMD (base o : Int) : Except Unit Int :=
  mkDate (yearOf base) (monthOf o) (dayOf o)

/-- `datetime.replace(day=…, month=…)` lifted to datetimes (time unchanged). -/
def replaceMD (dt : DateTime) (o : Int) : Except Unit DateTime := do
  let d ← pyReplaceMD dt.date o
  return ⟨d, dt.mins⟩

/-! ## `sorted(set(...))` -/

/-- Model of Python `sorted(set(l))`: the ascending list of distinct values. -/
def sortedSet (l : List Int) : List Int :=
  (l.dedup).insertionSort (· ≤ ·)

/-! ## The `Item` override tree (`location_parser.py::Item`)

The Python field `on` is called `on_` here because `on` is a reserved token
in Lean; all other field names match the source. -/

/-- `location_parser.py::Item`: the parsed location string with optional
modifiers and nested locations.  Dates are day numbers, times are minutes
of day. -/
inductive Item where
  | mk (location : Option String) (starts_from : Option Int)
       (starts_at : Option Int) (till : Option Int)
       (on_weeks : Option (List Int)) (on_ : Option (List Int))
       (except_ : Option (List Int)) (NEST : Option (List Item)) : Item

def Item.location : Item → Option String | ⟨l, _, _, _, _, _, _, _⟩ => l
def Item.starts_from : Item → Option Int | ⟨_, v, _, _, _, _, _, _⟩ => v
def Item.starts_at : Item → Option Int | ⟨_, _, v, _, _, _, _, _⟩ => v
def Item.till : Item → Option Int | ⟨_, _, _, v, _, _, _, _⟩ => v
def Item.on_weeks : Item → Option (List Int) | ⟨_, _, _, _, v, _, _, _⟩ => v
def Item.on_ : Item → Option (List Int) | ⟨_, _, _, _, _, v, _, _⟩ => v
def Item.except_ : Item → Option (List Int) | ⟨_, _, _, _, _, _, v, _⟩ => v
def Item.NEST : Item → Option (List Item) | ⟨_, _, _, _, _, _, _, v⟩ => v

/-- The all-`None` item (`Item()` would be rejected by pydantic only at the
level of convention; the parser always sets at least one field). -/
def Item.empty : Item := ⟨none, none, none, none, none, none, none, none⟩

def Item.withLocation : Item → Option String → Item
  | ⟨_, b, c, d, e, f, g, h⟩, l => ⟨l, b, c, d, e, f, g, h⟩
def Item.withStartsAt : Item → Option Int → Item
  | ⟨a, b, _, d, e, f, g, h⟩, v => ⟨a, b, v, d, e, f, g, h⟩
def Item.withTill : Item → Option Int → Item
  | ⟨a, b, c, _, e, f, g, h⟩, v => ⟨a, b, c, v, e, f, g, h⟩
def Item.withOn : Item → Option (List Int) → Item
  | ⟨a, b, c, d, e, _, g, h⟩, v => ⟨a, b, c, d, e, v, g, h⟩
def Item.withNEST : Item → Option (List Item) → Item
  | ⟨a, b, c, d, e, f, g, _⟩, v => ⟨a, b, c, d, e, f, g, v⟩

/-- Python truthiness of `item.on` (`if item.on:`): non-`None` and
non-empty. -/
def Item.onTruthy (it : Item) : Bool :=
  match it.on_ with
  | some l => !l.isEmpty
  | none => false

/-! ## The timetable slot (`cell_to_event.py::CoreCourseEvent`)

Only the fields read by `generate_vevents`'s scheduling logic are
represented (`course`, `group`, `subject`, `teacher`, `dtstamp` and the
spreadsheet back-reference feed only the omitted metadata fields). -/

structure CoreCourseEvent where
  start_time : Int
  end_time : Int
  weekday : Int
  starts : Int
  ends : Int
  location : Option String := none
  location_item : Option Item := none

/-! ## Generated events (`icalendar.Event` as populated by the code) -/

/-- The scheduling-relevant content of one generated `icalendar.Event`.
`rrule_until` is `some u` when the event carries
`RRULE:FREQ=WEEKLY;UNTIL=u`; `uid_seq` models the `sequence` argument of
`get_uid` — `none` for the default `"x"` (the root event), `some i` for
`str(i)` on independent nested events. -/
structure VEvent where
  location : Option String := none
  dtstart : DateTime
  dtend : DateTime
  rrule_until : Option Int := none
  rdate : Option (List DateTime) := none
  exdate : Option (List DateTime) := none
  recurrence_id : Option DateTime := none
  sequence : Option Int := none
  uid_seq : Option Nat := none
deriving Repr, DecidableEq

/-- Python string truthiness used by `if value: vevent.add(key, value)` —
`None` and the empty string are both skipped. -/
def pyTruthyStr (o : Option String) : Option String :=
  match o with
  | some s => if s = "" then none else some s
  | none => none

/-- Python `a or b` on optional strings (`location_item.location or
event.location`). -/
def pyOrStr (a b : Option String) : Option String :=
  match a with
  | some s => if s = "" then b else some s
  | none => b

/-- Effectful map used to model Python list comprehensions that can raise
(`[f(o) for o in l if p(o)]` evaluates `f` left to right and propagates the
first exception). -/
def mapME {α β : Type} (f : α → Except Unit β) : List α → Except Unit (List β)
  | [] => .ok []
  | a :: l => do
    let b ← f a
    let r ← mapME f l
    return b :: r

/-- `range_start ≤ o ≤ range_end` (the filter `event.starts <= on <= event.ends`). -/
def in_range (event : CoreCourseEvent) (o : Int) : Prop :=
  event.starts ≤ o ∧ o ≤ event.ends

instance (event : CoreCourseEvent) (o : Int) : Decidable (in_range event o) :=
  inferInstanceAs (Decidable (_ ∧ _))

/-! ## `event_to_ical.py::convert_weeks_on_to_only_on` -/

/-- `convert_weeks_on_to_only_on(item)` (a closure over `event`): absorbs
`on_weeks` into `on` and canonicalizes `on` to `sorted(set(on))`.  The
Python function mutates `item`; the embedding returns the updated item. -/
def convert_weeks_on_to_only_on (event : CoreCourseEvent) (item : Item) : Item :=
  let item1 :=
    match item.on_weeks with
    | some weeks =>
      if weeks ≠ [] then
        let onDates := weeks.map (fun w =>
          nearest_weekday event.starts event.weekday + 7 * (w - 1))
        match item.on_ with
        | some l =>
          if l ≠ [] then item.withOn (some (l ++ onDates))
          else if onDates ≠ [] then item.withOn (some onDates) else item
        | none => if onDates ≠ [] then item.withOn (some onDates) else item
      else item
    | none => item
  match item1.on_ with
  | some l => if l ≠ [] then item1.withOn (some (sortedSet l)) else item1
  | none => item1

/-! ## `event_to_ical.py::generate_vevents` -/

/-- Lines 213–222 / 241–250: take `location`, `starts_at`, `till` from a
nested item, adjusting the copied event `v` (keeping `duration` on a
`starts_at` shift). -/
def adjust_for_item (item : Item) (duration : Int) (v : VEvent) : VEvent :=
  let v := match item.location with
    | some s => if s = "" then v else { v with location := some s }
    | none => v
  let v := match item.starts_at with
    | some sa =>
      let d1 : DateTime := ⟨v.dtstart.date, sa⟩
      { v with dtstart := d1, dtend := addMins d1 duration }
    | none => v
  match item.till with
  | some t => { v with dtend := ⟨v.dtend.date, t⟩ }
  | none => v

/-- One override event of the weekly branch (lines 202–223): a copy of the
root event with `RECURRENCE-ID`, a sequence number, no `RRULE`, and dates
adapted to the nested item's date `o`. -/
def override_one (base : VEvent) (dtstart dtend : DateTime) (duration : Int)
    (item : Item) (o : Int) (seq : Int) : Except Unit VEvent := do
  let rid ← replaceMD dtstart o
  let d1 ← replaceMD dtstart o
  let d2 ← replaceMD dtend o
  let v := { base with recurrence_id := some rid, sequence := some seq,
                       rrule_until := none, dtstart := d1, dtend := d2 }
  return adjust_for_item item duration v

/-- The inner loop `for j, on in enumerate(item.on)` of the weekly branch,
threading the `seq` counter. -/
def overrides_for_dates (event : CoreCourseEvent) (base : VEvent)
    (dtstart dtend : DateTime) (duration : Int) (item : Item) :
    List Int → Int → Except Unit (List VEvent × Int)
  | [], seq => .ok ([], seq)
  | o :: rest, seq =>
    if event.starts > o ∨ o > event.ends then
      overrides_for_dates event base dtstart dtend duration item rest seq
    else do
      let v ← override_one base dtstart dtend duration item o (seq + 1)
      let (vs, seq') ←
        overrides_for_dates event base dtstart dtend duration item rest (seq + 1)
      return (v :: vs, seq')

/-- The outer loop `for i, item in enumerate(nested_on)` of the weekly
branch. -/
def overrides_for_items (event : CoreCourseEvent) (base : VEvent)
    (dtstart dtend : DateTime) (duration : Int) :
    List Item → Int → Except Unit (List VEvent × Int)
  | [], seq => .ok ([], seq)
  | it :: rest, seq => do
    let (vs1, seq1) ← overrides_for_dates event base dtstart dtend duration it
      (it.on_.getD []) seq
    let (vs2, seq2) ← overrides_for_items event base dtstart dtend duration rest seq1
    return (vs1 ++ vs2, seq2)

/-- One independent nested event of the explicit-dates branch
(lines 228–252): a copy of the root event with its own uid sequence, its own
filtered `RDATE` list (skipped when empty) and adapted dates. -/
def nested_one (event : CoreCourseEvent) (base : VEvent)
    (dtstart dtend : DateTime) (duration : Int) (i : Nat) (item : Item) :
    Except Unit (Option VEvent) := do
  let onl := item.on_.getD []
  let rdates ← mapME (fun o => replaceMD dtstart o)
    (onl.filter (fun o => decide (in_range event o)))
  if rdates = [] then
    return none
  else
    match onl with
    | [] => .error ()  -- unreachable: `rdates ≠ []` forces `onl ≠ []`
    | o0 :: _ => do
      let d1 ← replaceMD dtstart o0
      let d2 ← replaceMD dtend o0
      let v := { base with uid_seq := some i, rdate := some rdates,
                           dtstart := d1, dtend := d2 }
      return some (adjust_for_item item duration v)

/-- The loop over `enumerate(nested_on)` of the explicit-dates branch. -/
def nested_all (event : CoreCourseEvent) (base : VEvent)
    (dtstart dtend : DateTime) (duration : Int) :
    List (Nat × Item) → Except Unit (List VEvent)
  | [] => .ok []
  | (i, item) :: rest => do
    let v? ← nested_one event base dtstart dtend duration i item
    let vs ← nested_all event base dtstart dtend duration rest
    match v? with
    | some v => return v :: vs
    | none => return vs

/-- Lines 175–252 of `generate_vevents`: the partition of the (normalized)
nested items and the weekly-override / independent-event emission.  `li` is
the (already normalized) root item; `vevent` the completed root event;
`dtstart`/`dtend` the current (possibly `on[0]`-adapted) datetimes.  The
nested items are normalized (mutated) here. -/
def finish_nest (event : CoreCourseEvent) (li : Item) (vevent : VEvent)
    (dtstart dtend : DateTime) (duration : Int) :
    Except Unit (List VEvent × Option Item) := do
  let converted := (li.NEST.getD []).map (convert_weeks_on_to_only_on event)
  let liFinal := li.withNEST (li.NEST.map (fun _ => converted))
  let nested_on := converted.filter (fun it => it.onTruthy)
  let extra_nested := converted.filter (fun it => !it.onTruthy)
  if nested_on.isEmpty && extra_nested.isEmpty then
    return ([vevent], some liFinal)
  else
    if vevent.rrule_until.isSome then do
      let (ovs, _) ←
        overrides_for_items event vevent dtstart dtend duration nested_on 0
      return (ovs ++ [vevent], some liFinal)
    else do
      let nvs ← nested_all event vevent dtstart dtend duration nested_on.enum
      return (vevent :: nvs, some liFinal)

/-- Lines 170–252 of `generate_vevents`: the `EXDATE` handling followed by
`finish_nest`. -/
def finish_vevents (event : CoreCourseEvent) (li : Item) (vbase : VEvent)
    (dtstart dtend : DateTime) (duration : Int) :
    Except Unit (List VEvent × Option Item) := do
  -- check for item.except_ and add exdate if needed
  let vevent ←
    match li.except_ with
    | some exl =>
      if exl = [] then pure vbase
      else do
        let exdates ← mapME (fun o => replaceMD dtstart o) exl
        pure { vbase with exdate := some exdates }
    | none => pure vbase
  finish_nest event li vevent dtstart dtend duration

/-- Effective start date of the root: `location_item.starts_from or
event.starts` (line 118). -/
def eff_starts (event : CoreCourseEvent) (li0 : Item) : Int :=
  (li0.starts_from).getD event.starts

/-- Effective start time of the root: `starts_at` if set (line 122–127). -/
def eff_start_time (event : CoreCourseEvent) (li0 : Item) : Int :=
  match li0.starts_at with
  | some sa => sa
  | none => event.start_time

/-- Effective end time of the root: the `starts_at` shift keeps the original
duration (wrapping at midnight via `.time()`), and `till` overrides the
result directly (lines 122–129). -/
def eff_end_time (event : CoreCourseEvent) (li0 : Item) : Int :=
  match li0.till with
  | some t => t
  | none =>
    match li0.starts_at with
    | some sa => (sa + (event.end_time - event.start_time)) % 1440
    | none => event.end_time

/-- `start_of_weekdays = nearest_weekday(starts, event.weekday)` (line 132). -/
def root_sow (event : CoreCourseEvent) (li0 : Item) : Int :=
  nearest_weekday (eff_starts event li0) event.weekday

/-- `event_to_ical.py::generate_vevents`.  Returns the generated events in
yield order together with the final state of `event.location_item` (the
Python function mutates the tree in place via
`convert_weeks_on_to_only_on`).  `Except.error ()` models an uncaught
`ValueError` from `datetime.replace`. -/
def generate_vevents (event : CoreCourseEvent) :
    Except Unit (List VEvent × Option Item) := do
  match event.location_item with
  | none =>
    let sow := nearest_weekday event.starts event.weekday
    let v : VEvent := { location := pyTruthyStr event.location,
                        dtstart := ⟨sow, event.start_time⟩,
                        dtend := ⟨sow, event.end_time⟩,
                        rrule_until := some event.ends }
    return ([v], none)
  | some li0 =>
    let li := convert_weeks_on_to_only_on event li0
    let dtstart0 : DateTime := ⟨root_sow event li0, eff_start_time event li0⟩
    let dtend0 : DateTime := ⟨root_sow event li0, eff_end_time event li0⟩
    let duration := dtMinus dtend0 dtstart0
    let vbase : VEvent :=
      { location := pyTruthyStr (pyOrStr li0.location event.location),
        dtstart := dtstart0, dtend := dtend0 }
    -- recurrence choice for the root
    match li.on_ with
    | some onl =>
      if hne : onl = [] then
        -- `if location_item.on:` is false for an empty list: weekly rule
        finish_vevents event li { vbase with rrule_until := some event.ends }
          dtstart0 dtend0 duration
      else do
        let rdates ← mapME (fun o => replaceMD dtstart0 o)
          (onl.filter (fun o => decide (in_range event o)))
        if rdates = [] then
          -- `logger.warning(...); return`: no events; the root item was
          -- already mutated but the nested items were not yet touched
          return ([], some li)
        else do
          let o0 := onl.head hne
          let d1 ← replaceMD dtstart0 o0
          let d2 ← replaceMD dtend0 o0
          finish_vevents event li
            { vbase with rdate := some rdates, dtstart := d1, dtend := d2 }
            d1 d2 duration
    | none =>
      finish_vevents event li { vbase with rrule_until := some event.ends }
        dtstart0 dtend0 duration


/-! ## Derived descriptions of `generate_vevents`'s behaviour -/

/-- The run hits the `if not rdates: return` early exit: the normalized root
`on` list is non-empty but no date of it lies in the validity window. -/
def aborts_early (event : CoreCourseEvent) (li : Item) : Bool :=
  match (convert_weeks_on_to_only_on event li).on_ with
  | some onl => !onl.isEmpty &&
      (onl.filter (fun o => decide (in_range event o))).isEmpty
  | none => false

/-- The final state of the (mutated) override tree after a successful
`generate_vevents` run: the root is normalized, and the nested items are
normalized too unless the run aborted early (the early `return` fires before
the nested loop). -/
def final_tree (event : CoreCourseEvent) (li : Item) : Item :=
  (convert_weeks_on_to_only_on event li).withNEST
    (if aborts_early event li then li.NEST
     else li.NEST.map (fun l => l.map (convert_weeks_on_to_only_on event)))

/-- Provenance of an `RDATE` entry: it is `b.replace(month=o.month,
day=o.day)` for some in-window date `o` and a base `b` that is either the
root start-of-weekdays date `b0` or itself a month/day replacement of
`b0` (the `dtstart` adapted to `on[0]`).  The year of the emitted entry
always comes from the base, never from `o`. -/
def rdate_provenance (event : CoreCourseEvent) (b0 : Int) (dtv : DateTime) : Prop :=
  ∃ o b, in_range event o
    ∧ (b = b0 ∨ ∃ o2, pyReplaceMD b0 o2 = .ok b)
    ∧ pyReplaceMD b o = .ok dtv.date

/-- `[some start, some (start+1), …]` of length `n`: the expected shape of
the `sequence` numbers of the override events, in emission order. -/
def seqRange (start : Int) (n : Nat) : List (Option Int) :=
  (List.range n).map (fun j => some (start + Int.ofNat j))

/-! ## Concrete sample inputs and outputs

A family of concrete slots and override trees used to witness and refute
the claims.  The base slot runs Mondays 09:00–10:30 (minutes 540–630) from
2024-09-02 (a Monday) to 2024-12-09. -/

/-- Base slot without a location item. -/
def sampleSlot : CoreCourseEvent :=
  { start_time := 540, end_time := 630, weekday := 0,
    starts := civilToDays 2024 9 2, ends := civilToDays 2024 12 9 }

def liA : Item := ⟨some "313", none, none, none, none, none, none, none⟩
def evA : CoreCourseEvent := { sampleSlot with location_item := some liA }
def vevA : VEvent :=
  { location := some "313",
    dtstart := ⟨civilToDays 2024 9 2, 540⟩,
    dtend := ⟨civilToDays 2024 9 2, 630⟩,
    rrule_until := some (civilToDays 2024 12 9) }

def liB : Item := ⟨none, none, none, none, some [2], none, none, none⟩
def evB : CoreCourseEvent := { sampleSlot with location_item := some liB }

def liC : Item := ⟨none, none, some 600, none, none, none, none, none⟩
def evC : CoreCourseEvent := { sampleSlot with location_item := some liC }
def vevC : VEvent :=
  { dtstart := ⟨civilToDays 2024 9 2, 600⟩,
    dtend := ⟨civilToDays 2024 9 2, 690⟩,
    rrule_until := some (civilToDays 2024 12 9) }

def liD : Item :=
  ⟨none, none, none, none, none, some [civilToDays 2025 3 1], none, none⟩
/-- A slot whose validity window spans a calendar-year boundary. -/
def evD : CoreCourseEvent :=
  { start_time := 540, end_time := 630, weekday := 0,
    starts := civilToDays 2024 6 3, ends := civilToDays 2025 5 31,
    location_item := some liD }

def liE : Item :=
  ⟨some "ONLINE", none, none, none, none, some [civilToDays 2024 9 13], none,
    none⟩
def evE : CoreCourseEvent := { sampleSlot with location_item := some liE }
def vevE : VEvent :=
  { location := some "ONLINE",
    dtstart := ⟨civilToDays 2024 9 13, 540⟩,
    dtend := ⟨civilToDays 2024 9 13, 630⟩,
    rdate := some [⟨civilToDays 2024 9 13, 540⟩] }

def liF2 : Item :=
  ⟨some "2", none, none, none, none, some [civilToDays 2024 9 9], none, none⟩
def liF : Item := ⟨some "1", none, none, none, none, none, none, some [liF2]⟩
def evF : CoreCourseEvent := { sampleSlot with location_item := some liF }
def ovF : VEvent :=
  { location := some "2",
    dtstart := ⟨civilToDays 2024 9 9, 540⟩,
    dtend := ⟨civilToDays 2024 9 9, 630⟩,
    recurrence_id := some ⟨civilToDays 2024 9 9, 540⟩,
    sequence := some 1 }
def rootF : VEvent :=
  { location := some "1",
    dtstart := ⟨civilToDays 2024 9 2, 540⟩,
    dtend := ⟨civilToDays 2024 9 2, 630⟩,
    rrule_until := some (civilToDays 2024 12 9) }

def liG : Item :=
  ⟨none, none, none, none, none,
    some [civilToDays 2024 8 30, civilToDays 2024 9 13], none, none⟩
def evG : CoreCourseEvent := { sampleSlot with location_item := some liG }
def vevG : VEvent :=
  { dtstart := ⟨civilToDays 2024 8 30, 540⟩,
    dtend := ⟨civilToDays 2024 8 30, 630⟩,
    rdate := some [⟨civilToDays 2024 9 13, 540⟩] }

/-! ## A small backtracking regex engine

`location_parser.py` drives its grammar with `re.fullmatch`.  The engine
below reproduces Python's leftmost, ordered-alternation, greedy (with
backtracking) matching semantics for exactly the constructs those patterns
use; capture groups are numbered. -/

/-- Character classes appearing in the patterns. -/
inductive RC where
  | lit (c : Char)
  | digit
  | space
  | anyc
  | oneOf (cs : List Char)

/-- Which characters a class matches (`\s` is Python's `[ \t\n\r\f\v]`,
`.` is any character except a newline). -/
def RC.matches : RC → Char → Bool
  | .lit c, d => d == c
  | .digit, d => d.isDigit
  | .space, d => d == ' ' || d == '\t' || d == '\n' || d == '\r'
      || d == '\x0b' || d == '\x0c'
  | .anyc, d => d != '\n'
  | .oneOf cs, d => cs.contains d

/-- Regular expressions: ordered alternation, greedy `*`/`?`, lazy `+?`
(for `.+?`), and numbered capture groups. -/
inductive Rx where
  | eps
  | ch (c : RC)
  | seq (a b : Rx)
  | alt (a b : Rx)
  | star (a : Rx)
  | lazyPlus (a : Rx)
  | opt (a : Rx)
  | grp (n : Nat) (a : Rx)

abbrev Caps := List (Nat × List Char)

/-- CPS backtracking matcher.  The continuation `k` receives the remaining
input and the captures; alternatives are tried in order and quantifiers
backtrack through `k`, exactly as CPython's `re` does.  `fuel` bounds the
depth of the call tree (every recursive call decrements it); `rxFull`
supplies a fuel that exceeds the deepest possible stack for the pattern and
input, so the engine never runs dry (quantifier re-iteration is guarded by
a strict-progress check, so depth is bounded by pattern size times input
length). -/
def rxRun : Nat → Rx → List Char → Caps → (List Char → Caps → Option Caps) →
    Option Caps
  | 0, _, _, _, _ => none
  | fuel + 1, r, s, caps, k =>
    match r with
    | .eps => k s caps
    | .ch c =>
      match s with
      | [] => none
      | d :: rest => if c.matches d then k rest caps else none
    | .seq a b => rxRun fuel a s caps (fun s2 caps2 => rxRun fuel b s2 caps2 k)
    | .alt a b => (rxRun fuel a s caps k).orElse (fun _ => rxRun fuel b s caps k)
    | .opt a => (rxRun fuel a s caps k).orElse (fun _ => k s caps)
    | .grp n a => rxRun fuel a s caps (fun s2 caps2 =>
        k s2 ((n, s.take (s.length - s2.length)) :: caps2))
    | .star a =>
      (rxRun fuel a s caps (fun s2 caps2 =>
        if s2.length < s.length then rxRun fuel (.star a) s2 caps2 k
        else none)).orElse (fun _ => k s caps)
    | .lazyPlus a =>
      rxRun fuel a s caps (fun s2 caps2 =>
        (k s2 caps2).orElse (fun _ =>
          if s2.length < s.length then rxRun fuel (.lazyPlus a) s2 caps2 k
          else none))

/-- Syntactic size of a pattern, used to budget the matcher's fuel. -/
def rxSize : Rx → Nat
  | .eps => 1
  | .ch _ => 1
  | .seq a b => rxSize a + rxSize b + 1
  | .alt a b => rxSize a + rxSize b + 1
  | .star a => rxSize a + 1
  | .lazyPlus a => rxSize a + 1
  | .opt a => rxSize a + 1
  | .grp _ a => rxSize a + 1

/-- `re.fullmatch`: anchored at both ends; group 0 is the whole string. -/
def rxFull (r : Rx) (s : List Char) : Option Caps :=
  rxRun ((rxSize r + 2) * (s.length + 2) * 4) r s []
    (fun s2 caps => if s2.isEmpty then some ((0, s) :: caps) else none)

/-- Last (most recent) capture of group `n`, like `m.group(n)`. -/
def capGet (caps : Caps) (n : Nat) : List Char :=
  match caps with
  | [] => []
  | (m, v) :: rest => if m = n then v else capGet rest n

/-- A sequence of literal characters. -/
def rxStr (t : String) : Rx :=
  t.data.foldr (fun c acc => .seq (.ch (.lit c)) acc) .eps

/-- Ordered alternation of a list of patterns. -/
def rxAlts : List Rx → Rx
  | [] => .eps
  | [r] => r
  | r :: rs => .alt r (rxAlts rs)

def rxPlus (a : Rx) : Rx := .seq a (.star a)

/-- `\s*` and `\s+`. -/
def rxWs : Rx := .star (.ch .space)
def rxWs1 : Rx := rxPlus (.ch .space)

/-- `\d{1,2}` (greedy). -/
def rxD12 : Rx := .seq (.ch .digit) (.opt (.ch .digit))

/-- `\d{1,2}[\/.]\d{1,2}` — one date token. -/
def rxDate : Rx := .seq rxD12 (.seq (.ch (.oneOf ['/', '.'])) rxD12)

/-- `\d{1,2}[:.]\d{1,2}` — one time token. -/
def rxTime : Rx := .seq rxD12 (.seq (.ch (.oneOf [':', '.'])) rxD12)

/-! ## Normalization (`parse_location_string` lines 145–151) -/

/-- Python `str.upper()` restricted to the alphabets the parser uses
(ASCII and Russian Cyrillic). -/
def pyUpperChar (c : Char) : Char :=
  if 97 ≤ c.toNat ∧ c.toNat ≤ 122 then Char.ofNat (c.toNat - 32)
  else if 0x430 ≤ c.toNat ∧ c.toNat ≤ 0x44F then Char.ofNat (c.toNat - 32)
  else if c.toNat = 0x451 then Char.ofNat 0x401
  else c

def isSpaceChar (c : Char) : Bool := RC.space.matches c

/-- Python `str.replace` (all non-overlapping occurrences, left to right). -/
def replaceSub (pat rep : List Char) : Nat → List Char → List Char
  | 0, s => s
  | fuel + 1, s =>
    match s with
    | [] => []
    | c :: rest =>
      if pat ≠ [] ∧ pat.isPrefixOf (c :: rest) then
        rep ++ replaceSub pat rep fuel ((c :: rest).drop pat.length)
      else c :: replaceSub pat rep fuel rest

/-- Python `str.strip()`. -/
def pyStrip (s : List Char) : List Char :=
  ((s.dropWhile isSpaceChar).reverse.dropWhile isSpaceChar).reverse

/-- One attempt of `\s+KW\s+` at the head of `s`; on success returns the
rest after the (greedy) trailing whitespace. -/
def matchKwAt (kw s : List Char) : Option (List Char) :=
  let ws1 := s.takeWhile isSpaceChar
  if ws1 = [] then none
  else
    let s1 := s.drop ws1.length
    if kw.isPrefixOf s1 then
      let s2 := s1.drop kw.length
      let ws2 := s2.takeWhile isSpaceChar
      if ws2 = [] then none else some (s2.drop ws2.length)
    else none

/-- `re.sub(r"\s+KW\s+", ", ", s)`. -/
def subKw (kw : List Char) : Nat → List Char → List Char
  | 0, s => s
  | fuel + 1, s =>
    match s with
    | [] => []
    | c :: rest =>
      match matchKwAt kw (c :: rest) with
      | some rest2 => ',' :: ' ' :: subKw kw fuel rest2
      | none => c :: subKw kw fuel rest

/-- The preprocessing of `parse_location_string`: uppercase, unwrap
`(ONLINE)`/`(ОНЛАЙН)`, strip, and turn `" AND "`/`" И "` into `", "`. -/
def normalize (raw : String) : List Char :=
  let s := raw.data.map pyUpperChar
  let s := replaceSub "(ONLINE)".data "ONLINE".data s.length s
  let s := replaceSub "(ОНЛАЙН)".data "ОНЛАЙН".data s.length s
  let s := pyStrip s
  let s := subKw "AND".data s.length s
  let s := subKw "И".data s.length s
  s

/-! ## The location and modifier token patterns -/

/-- One atom of the slash-joined location list: `(\d|ONLINE|ОНЛАЙН)`. -/
def rxLocAtom : Rx := rxAlts [.ch .digit, rxStr "ONLINE", rxStr "ОНЛАЙН"]

/-- `_loc`: the ordered alternation of the location token patterns. -/
def rxLoc : Rx := rxAlts
  [ rxPlus (.ch .digit),
    .ch (.lit '?'),
    .seq (rxStr "ROOM") (.seq rxWs (.seq (.opt (.ch (.lit '#')))
      (.seq rxWs (rxPlus (.ch .digit))))),
    .alt (rxStr "ONLINE") (rxStr "ОНЛАЙН"),
    .seq (.alt (rxStr "ONLINE") (rxStr "ОНЛАЙН")) (.seq rxWs (rxStr "(TBA)")),
    .seq (rxPlus rxLocAtom) (rxPlus (.seq rxWs (.seq (.ch (.lit '/'))
      (.seq rxWs (rxPlus rxLocAtom))))) ]

/-- `_starts_from_pattern`; group 2 is the date token (as in the Python
`m.group(2)`). -/
def rxStartsFrom : Rx :=
  .seq (.opt (.ch (.lit '(')))
    (.seq (rxAlts [rxStr "STARTS ON", rxStr "STARTS FROM", rxStr "FROM",
        rxStr "С", rxStr "НАЧАЛО С", rxStr "СТАРТ", rxStr "СТАРТ С"])
      (.seq rxWs (.seq (.grp 2 rxDate) (.opt (.ch (.lit ')'))))))

/-- `_starts_at_pattern`; group 2 is the time token. -/
def rxStartsAt : Rx :=
  .seq (.opt (.ch (.lit '(')))
    (.seq (rxAlts [rxStr "STARTS", rxStr "STARTS AT", rxStr "НАЧАЛО В",
        rxStr "НАЧАЛО"])
      (.seq rxWs (.seq (.grp 2 rxTime) (.opt (.ch (.lit ')'))))))

/-- One entry of the week list: `\d+(?:-\d+)?`. -/
def rxWeekEntry : Rx :=
  .seq (rxPlus (.ch .digit)) (.opt (.seq (.ch (.lit '-')) (rxPlus (.ch .digit))))

/-- `_week_pattern`; group 3 is the `weeks` list. -/
def rxWeekPat : Rx :=
  .seq (.opt (.ch (.lit '(')))
    (.seq (rxStr "WEEK")
      (.seq rxWs
        (.seq (.grp 3 (.seq rxWeekEntry
            (.star (.seq (.ch (.lit ',')) (.seq rxWs rxWeekEntry)))))
          (.seq (.opt (.seq rxWs1 (rxStr "ONLY"))) (.opt (.ch (.lit ')')))))))

/-- `_on_pattern`; group 4 is the `dates` list. -/
def rxOnPat : Rx :=
  .seq (.opt (.ch (.lit '(')))
    (.seq (rxAlts [rxStr "ON", rxStr "ONLY ON", rxStr "НА", rxStr "ТОЛЬКО НА",
        rxStr "ТОЛЬКО"])
      (.seq rxWs
        (.seq (.grp 4 (.seq rxDate
            (.star (.seq (.ch (.oneOf [',', ' ', '\t', '\n', '\r', '\x0b', '\x0c']))
              (.seq rxWs rxDate)))))
          (.opt (.ch (.lit ')'))))))

/-- `_till_pattern`; group 5 is the time token. -/
def rxTillPat : Rx :=
  .seq (.opt (.ch (.lit '(')))
    (.seq (rxStr "TILL")
      (.seq rxWs (.seq (.grp 5 rxTime) (.opt (.ch (.lit ')'))))))

/-- `_except_pattern`; group 6 is the `dates_except` list (separator is
`[,\s]+`). -/
def rxExceptPat : Rx :=
  .seq (.opt (.ch (.lit '(')))
    (.seq (.alt (rxStr "EXCEPT") (rxStr "КРОМЕ"))
      (.seq rxWs
        (.seq (.grp 6 (.seq rxDate
            (.star (.seq (rxPlus (.ch (.oneOf [',', ' ', '\t', '\n', '\r', '\x0b', '\x0c'])))
              rxDate))))
          (.opt (.ch (.lit ')'))))))

/-- Strip the capture groups from a pattern (the Python code builds
`_mod_noname` by deleting the named groups before embedding `_mod` twice in
one pattern). -/
def rxNoGrp : Rx → Rx
  | .eps => .eps
  | .ch c => .ch c
  | .seq a b => .seq (rxNoGrp a) (rxNoGrp b)
  | .alt a b => .alt (rxNoGrp a) (rxNoGrp b)
  | .star a => .star (rxNoGrp a)
  | .lazyPlus a => .lazyPlus (rxNoGrp a)
  | .opt a => .opt (rxNoGrp a)
  | .grp _ a => rxNoGrp a

/-- `_mod`: the ordered alternation of the six modifier patterns. -/
def rxMod : Rx := rxAlts
  [rxStartsFrom, rxStartsAt, rxWeekPat, rxOnPat, rxTillPat, rxExceptPat]

/-- `_mod_noname`. -/
def rxModN : Rx := rxNoGrp rxMod

/-- `location_plus_pattern`: `(?P<location>_loc) \(?(?P<g>pattern)\)?` with
a literal space; the location is group 10, the payload group 11. -/
def rxLocPlus (pat : Rx) : Rx :=
  .seq (.grp 10 rxLoc)
    (.seq (.ch (.lit ' '))
      (.seq (.opt (.ch (.lit '(')))
        (.seq (.grp 11 pat) (.opt (.ch (.lit ')'))))))

/-- `_two_modifiers_pattern`; groups 12 (`first`) and 13 (`second`). -/
def rxTwoMod : Rx :=
  .seq (.opt (.ch (.lit '(')))
    (.seq (.grp 12 rxModN)
      (.seq (.opt (.ch (.lit ')')))
        (.seq rxWs
          (.seq (.opt (.ch (.lit '(')))
            (.seq (.grp 13 rxModN) (.opt (.ch (.lit ')'))))))))

/-- `_three_modifiers_pattern`; groups 14, 15, 16. -/
def rxThreeMod : Rx :=
  .seq (.opt (.ch (.lit '(')))
    (.seq (.grp 14 rxModN)
      (.seq (.opt (.ch (.lit ')')))
        (.seq rxWs
          (.seq (.opt (.ch (.lit '(')))
            (.seq (.grp 15 rxModN)
              (.seq (.opt (.ch (.lit ')')))
                (.seq rxWs
                  (.seq (.opt (.ch (.lit '(')))
                    (.seq (.grp 16 rxModN) (.opt (.ch (.lit ')'))))))))))))

/-- `_simple_nest_pattern`; location group 10, `rest` group 17. -/
def rxSimpleNest : Rx :=
  .seq (.grp 10 rxLoc)
    (.seq rxWs
      (.seq (.opt (.ch (.lit '(')))
        (.seq (.grp 17 (rxPlus (.ch .anyc))) (.opt (.ch (.lit ')'))))))

/-- `__1`: `loc \(?mod\)? / another`; groups 10, 18, 19. -/
def rxFam1 : Rx :=
  .seq (.grp 10 rxLoc)
    (.seq rxWs
      (.seq (.opt (.ch (.lit '(')))
        (.seq (.grp 18 rxModN)
          (.seq (.opt (.ch (.lit ')')))
            (.seq rxWs
              (.seq (.ch (.lit '/'))
                (.seq rxWs (.grp 19 (rxPlus (.ch .anyc))))))))))

/-- `__4_2`: `l1 m1, l2 m2`; groups 20–23. -/
def rxFam42 : Rx :=
  .seq (.grp 20 rxLoc)
    (.seq rxWs
      (.seq (.grp 21 rxModN)
        (.seq rxWs
          (.seq (.ch (.lit ','))
            (.seq rxWs
              (.seq (.grp 22 rxLoc) (.seq rxWs (.grp 23 rxModN))))))))

/-- `__4_3`: `l1 m1, l2 m2, l3 m3`; groups 20–25. -/
def rxFam43 : Rx :=
  .seq (.grp 20 rxLoc)
    (.seq rxWs
      (.seq (.grp 21 rxModN)
        (.seq rxWs
          (.seq (.ch (.lit ','))
            (.seq rxWs
              (.seq (.grp 22 rxLoc)
                (.seq rxWs
                  (.seq (.grp 23 rxModN)
                    (.seq rxWs
                      (.seq (.ch (.lit ','))
                        (.seq rxWs
                          (.seq (.grp 24 rxLoc)
                            (.seq rxWs (.grp 25 rxMod))))))))))))))

/-- `__2`: `loc \(?mod\)?, another.+? \(?common\)?`; groups 10, 26, 27, 28. -/
def rxFam2 : Rx :=
  .seq (.grp 10 rxLoc)
    (.seq rxWs
      (.seq (.opt (.ch (.lit '(')))
        (.seq (.grp 26 rxModN)
          (.seq (.opt (.ch (.lit ')')))
            (.seq rxWs
              (.seq (.ch (.lit ','))
                (.seq rxWs
                  (.seq (.grp 27 (.lazyPlus (.ch .anyc)))
                    (.seq rxWs
                      (.seq (.opt (.ch (.lit '(')))
                        (.seq (.grp 28 rxModN)
                          (.opt (.ch (.lit ')'))))))))))))))

/-- `__3`: `loc \(?loc2 mod\)? another`; groups 10, 29, 30, 31. -/
def rxFam3 : Rx :=
  .seq (.grp 10 rxLoc)
    (.seq rxWs
      (.seq (.opt (.ch (.lit '(')))
        (.seq (.grp 29 rxLoc)
          (.seq rxWs
            (.seq (.grp 30 rxModN)
              (.seq (.opt (.ch (.lit ')')))
                (.seq rxWs (.grp 31 (rxPlus (.ch .anyc))))))))))

/-- `__5`: `loc (loc1 mod1, loc2 mod2)`; groups 32–36. -/
def rxFam5 : Rx :=
  .seq (.grp 32 rxLoc)
    (.seq rxWs
      (.seq (.ch (.lit '('))
        (.seq (.grp 33 rxLoc)
          (.seq rxWs
            (.seq (.grp 34 rxModN)
              (.seq (.ch (.lit ','))
                (.seq rxWs
                  (.seq (.grp 35 rxLoc)
                    (.seq rxWs
                      (.seq (.grp 36 rxModN) (.ch (.lit ')'))))))))))))

/-- `__6`: `loc mod (loc2 mod2)`; groups 37–40. -/
def rxFam6 : Rx :=
  .seq (.grp 37 rxLoc)
    (.seq rxWs
      (.seq (.grp 38 rxModN)
        (.seq rxWs
          (.seq (.ch (.lit '('))
            (.seq (.grp 39 rxLoc)
              (.seq rxWs
                (.seq (.grp 40 rxModN) (.ch (.lit ')')))))))))

/-! ## `get_location` and the modifier builders -/

/-- Split a character list on a separator character (Python `str.split`). -/
def splitOnChar (sep : Char) (s : List Char) : List (List Char) :=
  match s with
  | [] => [[]]
  | c :: rest =>
    let r := splitOnChar sep rest
    if c = sep then [] :: r
    else
      match r with
      | [] => [[c]]
      | p :: ps => (c :: p) :: ps

/-- Numeric value of a digit string. -/
def digitsVal (s : List Char) : Int :=
  s.foldl (fun acc c => acc * 10 + (c.toNat - 48 : Int)) 0

/-- Python `int(s)`: strips whitespace; `none` models `ValueError`. -/
def pyInt (s : List Char) : Option Int :=
  let t := pyStrip s
  if t ≠ [] ∧ t.all Char.isDigit then some (digitsVal t) else none

/-- Greedily consume one run of `(\d|ONLINE|ОНЛАЙН)+`; returns the rest, or
`none` when no atom is found. -/
def eatAtoms : Nat → List Char → Option (List Char)
  | 0, _ => none
  | fuel + 1, s =>
    match s with
    | [] => none
    | c :: rest =>
      if c.isDigit then
        match eatAtoms fuel rest with
        | some r => some r
        | none => some rest
      else if "ONLINE".data.isPrefixOf (c :: rest) then
        let r2 := (c :: rest).drop 6
        match eatAtoms fuel r2 with
        | some r => some r
        | none => some r2
      else if "ОНЛАЙН".data.isPrefixOf (c :: rest) then
        let r2 := (c :: rest).drop 6
        match eatAtoms fuel r2 with
        | some r => some r
        | none => some r2
      else none

/-- Does `y` match `((\d|ONLINE|ОНЛАЙН)+(?:\s*/\s*(\d|ONLINE|ОНЛАЙН)+)+)`
(at least two slash-separated atom runs)? -/
def isSlashList (y : List Char) : Bool :=
  let fuel := y.length + 1
  let rec go : Nat → List Char → Nat → Bool
    | 0, _, _ => false
    | f + 1, s, segs =>
      match eatAtoms fuel s with
      | none => false
      | some rest =>
        let rest2 := rest.dropWhile isSpaceChar
        match rest2 with
        | '/' :: tail =>
          go f (tail.dropWhile isSpaceChar) (segs + 1)
        | [] => rest.isEmpty && segs + 1 ≥ 2
        | _ => false
  go fuel y 0

/-- `^ROOM\s*#?\s*(\d+)$`: returns the digits. -/
def roomNumber (y : List Char) : Option (List Char) :=
  if "ROOM".data.isPrefixOf y then
    let r := (y.drop 4).dropWhile isSpaceChar
    let r := match r with
      | '#' :: t => t.dropWhile isSpaceChar
      | _ => r
    if r ≠ [] ∧ r.all Char.isDigit then some r else none
  else none

/-- `get_location`: the ordered cascade of location token matches. -/
def get_location (y : List Char) : Option String :=
  if y ≠ [] ∧ y.all Char.isDigit then some (String.mk y)
  else if y = ['?'] then some "?"
  else
    match roomNumber y with
    | some ds => some (String.mk ds)
    | none =>
      if y = "ONLINE".data ∨ y = "ОНЛАЙН".data then some (String.mk y)
      else if Option.isSome (rxFull (.seq (.alt (rxStr "ONLINE") (rxStr "ОНЛАЙН"))
          (.seq rxWs (rxStr "(TBA)"))) y) then some (String.mk y)
      else if isSlashList y then
        some (String.intercalate "/"
          ((splitOnChar '/' y).map (fun p => String.mk (pyStrip p))))
      else none

/-- Item with only one field set (building blocks for the builders). -/
def itemLoc (l : Option String) : Item := ⟨l, none, none, none, none, none, none, none⟩
def itemStartsFrom (d : Int) : Item := ⟨none, some d, none, none, none, none, none, none⟩
def itemStartsAt (t : Int) : Item := ⟨none, none, some t, none, none, none, none, none⟩
def itemTill (t : Int) : Item := ⟨none, none, none, some t, none, none, none, none⟩
def itemOnWeeks (w : List Int) : Item := ⟨none, none, none, none, some w, none, none, none⟩
def itemOn (d : List Int) : Item := ⟨none, none, none, none, none, some d, none, none⟩
def itemExcept (d : List Int) : Item := ⟨none, none, none, none, none, none, some d, none⟩

/-- Parse a `D{1,2}[\/.]D{1,2}` capture as `(day, month)` and build the
`ydate` (`date(year=current_year, month, day)` — may raise). -/
def buildYDate (year : Int) (ds : List Char) : Except Unit Int :=
  let ds := ds.map (fun c => if c = '.' then '/' else c)
  match splitOnChar '/' ds with
  | [d, m] =>
    match pyInt d, pyInt m with
    | some di, some mi => mkDate year mi di
    | _, _ => .error ()
  | _ => .error ()

/-- Parse a `D{1,2}[:.]D{1,2}` capture and build the `time` (may raise). -/
def buildTime (ts : List Char) : Except Unit Int :=
  let ts := ts.map (fun c => if c = '.' then ':' else c)
  match splitOnChar ':' ts with
  | [h, m] =>
    match pyInt h, pyInt m with
    | some hi, some mi => mkTime hi mi
    | _, _ => .error ()
  | _ => .error ()

/-- `starts_from(y)`. -/
def starts_from (year : Int) (y : List Char) : Except Unit (Option Item) :=
  match rxFull rxStartsFrom y with
  | none => .ok none
  | some caps => do
    let d ← buildYDate year (capGet caps 2)
    return some (itemStartsFrom d)

/-- `starts_at(y)`. -/
def starts_at (y : List Char) : Except Unit (Option Item) :=
  match rxFull rxStartsAt y with
  | none => .ok none
  | some caps => do
    let t ← buildTime (capGet caps 2)
    return some (itemStartsAt t)

/-- `[a, a+1, …, b]` (empty when `b < a`), the meaning of a `N-M` week
range. -/
def intRange (a b : Int) : List Int :=
  (List.range (b + 1 - a).toNat).map (fun k : Nat => a + (k : Int))

/-- One comma-separated entry of a week list: `N` or `N-M` (expanded via
`range(int(w[0]), int(w[1]) + 1)`). -/
def expandEntry (p : List Char) : Option (List Int) :=
  match splitOnChar '-' p with
  | [u] => (pyInt u).map (fun n => [n])
  | [u, v] => do
    let x ← pyInt u
    let y ← pyInt v
    some (intRange x y)
  | _ => none

/-- Structural `Option`-monadic map (a list comprehension whose body may
fail). -/
def mapMO {α β : Type} (f : α → Option β) : List α → Option (List β)
  | [] => some []
  | a :: l => do
    let b ← f a
    let r ← mapMO f l
    some (b :: r)

/-- The week-list expansion: split on `,`, expand each entry, flatten. -/
def weekExpand (ws : List Char) : Option (List Int) := do
  let ls ← mapMO expandEntry (splitOnChar ',' ws)
  some ls.flatten

/-- `week(y)`. -/
def week (y : List Char) : Except Unit (Option Item) :=
  match rxFull rxWeekPat y with
  | none => .ok none
  | some caps =>
    match weekExpand (capGet caps 3) with
    | some l => .ok (some (itemOnWeeks l))
    | none => .error ()

/-- One step of `re.finditer(_date_component_pattern, s)`: try to read
`\d{1,2}[\/.]\d{1,2}` at the head (greedy with backtracking on the day). -/
def matchDateAt (s : List Char) : Option (Int × Int × List Char) :=
  match s with
  | a :: b :: c :: rest =>
    if a.isDigit && b.isDigit && (c == '/' || c == '.') then
      -- two-digit day
      match rest with
      | d :: e :: rest2 =>
        if d.isDigit && e.isDigit then
          some (digitsVal [a, b], digitsVal [d, e], rest2)
        else if d.isDigit then some (digitsVal [a, b], digitsVal [d], e :: rest2)
        else none
      | [d] =>
        if d.isDigit then some (digitsVal [a, b], digitsVal [d], []) else none
      | [] => none
    else if a.isDigit && (b == '/' || b == '.') then
      -- one-digit day
      match rest with
      | e :: rest2 =>
        if c.isDigit && e.isDigit then
          some (digitsVal [a], digitsVal [c, e], rest2)
        else if c.isDigit then some (digitsVal [a], digitsVal [c], e :: rest2)
        else none
      | [] => if c.isDigit then some (digitsVal [a], digitsVal [c], []) else none
    else none
  | _ => none

/-- `re.finditer` over the `dates` capture: all non-overlapping date
components, left to right. -/
def scanDates : Nat → List Char → List (Int × Int)
  | 0, _ => []
  | fuel + 1, s =>
    match s with
    | [] => []
    | c :: rest =>
      match matchDateAt (c :: rest) with
      | some (d, m, rest2) => (d, m) :: scanDates fuel rest2
      | none => scanDates fuel rest

/-- `on(y)` (named `on_` because `on` is reserved in Lean). -/
def on_ (year : Int) (y : List Char) : Except Unit (Option Item) :=
  match rxFull rxOnPat y with
  | none => .ok none
  | some caps => do
    let ds := capGet caps 4
    let dates ← mapME (fun p => mkDate year p.2 p.1) (scanDates ds.length ds)
    return some (itemOn dates)

/-- `till(y)`. -/
def till (y : List Char) : Except Unit (Option Item) :=
  match rxFull rxTillPat y with
  | none => .ok none
  | some caps => do
    let t ← buildTime (capGet caps 5)
    return some (itemTill t)

/-- `except_(y)`. -/
def except_ (year : Int) (y : List Char) : Except Unit (Option Item) :=
  match rxFull rxExceptPat y with
  | none => .ok none
  | some caps => do
    let ds := capGet caps 6
    let dates ← mapME (fun p => mkDate year p.2 p.1) (scanDates ds.length ds)
    return some (itemExcept dates)

/-! ## `any_modifier`, the combined-modifier steps and the nesting families -/

/-- The merge `as_z1.model_dump(exclude_none=True) |
as_z2.model_dump(exclude_none=True)`: for every field the right operand
wins when it is set, otherwise the left operand's value is kept. -/
def mergeItems (a b : Item) : Item :=
  ⟨b.location <|> a.location, b.starts_from <|> a.starts_from,
   b.starts_at <|> a.starts_at, b.till <|> a.till,
   b.on_weeks <|> a.on_weeks, b.on_ <|> a.on_,
   b.except_ <|> a.except_, b.NEST <|> a.NEST⟩

/-- `any_modifier(y)`: if `y` matches `_mod` as a whole, run the six
builders in order on the full string. -/
def any_modifier (year : Int) (y : List Char) : Except Unit (Option Item) :=
  match rxFull rxMod y with
  | none => .ok none
  | some _ => do
    match ← starts_from year y with
    | some it => return some it
    | none =>
    match ← starts_at y with
    | some it => return some it
    | none =>
    match ← week y with
    | some it => return some it
    | none =>
    match ← on_ year y with
    | some it => return some it
    | none =>
    match ← till y with
    | some it => return some it
    | none =>
    match ← except_ year y with
    | some it => return some it
    | none => return none

/-- `two_modifiers(y)`. -/
def two_modifiers (year : Int) (y : List Char) : Except Unit (Option Item) :=
  match rxFull rxTwoMod y with
  | none => .ok none
  | some caps => do
    match ← any_modifier year (capGet caps 12),
          ← any_modifier year (capGet caps 13) with
    | some a, some b => return some (mergeItems a b)
    | _, _ => return none

/-- `three_modifiers(y)`. -/
def three_modifiers (year : Int) (y : List Char) : Except Unit (Option Item) :=
  match rxFull rxThreeMod y with
  | none => .ok none
  | some caps => do
    match ← any_modifier year (capGet caps 14),
          ← any_modifier year (capGet caps 15),
          ← any_modifier year (capGet caps 16) with
    | some a, some b, some c => return some (mergeItems (mergeItems a b) c)
    | _, _, _ => return none

/-- `location_plus_pattern("any_modifier", _mod)` step; `.error ()` models
the `AttributeError` on `None.location` the Python lines would raise. -/
def loc_plus_any (year : Int) (x : List Char) : Except Unit (Option Item) :=
  match rxFull (rxLocPlus rxMod) x with
  | none => .ok none
  | some caps => do
    match ← any_modifier year (capGet caps 11) with
    | some it => return some (it.withLocation (get_location (capGet caps 10)))
    | none => .error ()

/-- `location_plus_pattern("two_modifiers", _two_modifiers_pattern)` step. -/
def loc_plus_two (year : Int) (x : List Char) : Except Unit (Option Item) :=
  match rxFull (rxLocPlus (rxNoGrp rxTwoMod)) x with
  | none => .ok none
  | some caps => do
    match ← two_modifiers year (capGet caps 11) with
    | some it => return some (it.withLocation (get_location (capGet caps 10)))
    | none => .error ()

/-- `location_plus_pattern("three_modifiers", _three_modifiers_pattern)`
step. -/
def loc_plus_three (year : Int) (x : List Char) : Except Unit (Option Item) :=
  match rxFull (rxLocPlus (rxNoGrp rxThreeMod)) x with
  | none => .ok none
  | some caps => do
    match ← three_modifiers year (capGet caps 11) with
    | some it => return some (it.withLocation (get_location (capGet caps 10)))
    | none => .error ()

/-- Steps 1–7 of `parse_location_string` (everything before the nesting
families), applied to the already-normalized text. -/
def parseFlat (year : Int) (x : List Char) : Except Unit (Option Item) := do
  match get_location x with
  | some l => return some (itemLoc (some l))
  | none =>
  match ← any_modifier year x with
  | some it => return some it
  | none =>
  match ← loc_plus_any year x with
  | some it => return some it
  | none =>
  match ← two_modifiers year x with
  | some it => return some it
  | none =>
  match ← loc_plus_two year x with
  | some it => return some it
  | none =>
  match ← three_modifiers year x with
  | some it => return some it
  | none =>
  match ← loc_plus_three year x with
  | some it => return some it
  | none => return none

/-- `parse_location_string(sub, from_parent=True)`: normalization plus the
flat steps; the nesting families are skipped (`only one nesting level`). -/
def parseNoNest (year : Int) (raw : String) : Except Unit (Option Item) :=
  parseFlat year (normalize raw)

/-- `simple_nest(y)`. -/
def simple_nest (year : Int) (x : List Char) : Except Unit (Option Item) :=
  match rxFull rxSimpleNest x with
  | none => .ok none
  | some caps => do
    let rest ← parseNoNest year (String.mk (capGet caps 17))
    match rest with
    | some r =>
      return some ⟨get_location (capGet caps 10), none, none, none, none,
        none, none, some [r]⟩
    | none => return none

/-- `_1(y)`: `313 (WEEK 1-3) / ONLINE`. -/
def family_1 (year : Int) (x : List Char) : Except Unit (Option Item) :=
  match rxFull rxFam1 x with
  | none => .ok none
  | some caps => do
    let m? ← any_modifier year (capGet caps 18)
    let a? ← parseNoNest year (String.mk (capGet caps 19))
    match m?, a? with
    | some m, some a =>
      return some (((m.withLocation (get_location (capGet caps 10))).withNEST
        (some [a])))
    | _, _ => return none

/-- The `__4_3` half of `_4(y)`: three `location modifier` clauses joined
by commas. -/
def family_43 (year : Int) (x : List Char) : Except Unit (Option Item) :=
  match rxFull rxFam43 x with
  | none => .ok none
  | some caps => do
    let m1o ← any_modifier year (capGet caps 21)
    let m2o ← any_modifier year (capGet caps 23)
    let m3o ← any_modifier year (capGet caps 25)
    match m1o, m2o, m3o with
    | some m1, some m2, some m3 =>
      return some ((m1.withLocation (get_location (capGet caps 20))).withNEST
        (some [m2.withLocation (get_location (capGet caps 22)),
               m3.withLocation (get_location (capGet caps 24))]))
    | _, _, _ => return none

/-- `_4(y)`: `__4_2(y) or __4_3(y)` — two `location modifier` clauses,
falling back to the three-clause form. -/
def family_4 (year : Int) (x : List Char) : Except Unit (Option Item) :=
  match rxFull rxFam42 x with
  | none => family_43 year x
  | some caps => do
    let m1o ← any_modifier year (capGet caps 21)
    let m2o ← any_modifier year (capGet caps 23)
    match m1o, m2o with
    | some m1, some m2 =>
      return some ((m1.withLocation (get_location (capGet caps 20))).withNEST
        (some [m2.withLocation (get_location (capGet caps 22))]))
    | _, _ => family_43 year x

/-- `_2(y)`: `ONLINE ON 13/09, 108 ON 01/11 (STARTS AT 9:00)` — the
trailing common modifier donates `starts_at`/`till` to the nested clause
and takes the leading clause's `on` dates. -/
def family_2 (year : Int) (x : List Char) : Except Unit (Option Item) :=
  match rxFull rxFam2 x with
  | none => .ok none
  | some caps => do
    let m? ← any_modifier year (capGet caps 26)
    let a? ← parseNoNest year (String.mk (capGet caps 27))
    let c? ← any_modifier year (capGet caps 28)
    match m?, a?, c? with
    | some m, some a, some c =>
      let a := match c.starts_at with
        | some v => a.withStartsAt (some v)
        | none => a
      let a := match c.till with
        | some v => a.withTill (some v)
        | none => a
      let c := c.withLocation (get_location (capGet caps 10))
      let c := c.withOn m.on_
      return some (c.withNEST (some [a]))
    | _, _, _ => return none

/-- `_3(y)`: `314 (312 ON 12/09,19/09,26/09) 301 ON 03/10`. -/
def family_3 (year : Int) (x : List Char) : Except Unit (Option Item) :=
  match rxFull rxFam3 x with
  | none => .ok none
  | some caps => do
    let m? ← any_modifier year (capGet caps 30)
    let a? ← parseNoNest year (String.mk (capGet caps 31))
    match m?, a? with
    | some m, some a =>
      return some ⟨get_location (capGet caps 10), none, none, none, none,
        none, none, some [m.withLocation (get_location (capGet caps 29)), a]⟩
    | _, _ => return none

/-- `_5(y)`: `107 (106 НА 16.09, 105 НА 07.10)`. -/
def family_5 (year : Int) (x : List Char) : Except Unit (Option Item) :=
  match rxFull rxFam5 x with
  | none => .ok none
  | some caps => do
    let m1? ← any_modifier year (capGet caps 34)
    let m2? ← any_modifier year (capGet caps 36)
    match m1?, m2? with
    | some m1, some m2 =>
      return some ⟨get_location (capGet caps 32), none, none, none, none,
        none, none, some [m1.withLocation (get_location (capGet caps 33)),
          m2.withLocation (get_location (capGet caps 35))]⟩
    | _, _ => return none

/-- `_6(y)`: `317 ON 15/02, … (ONLINE ON 26/04)`. -/
def family_6 (year : Int) (x : List Char) : Except Unit (Option Item) :=
  match rxFull rxFam6 x with
  | none => .ok none
  | some caps => do
    let m? ← any_modifier year (capGet caps 38)
    let m2? ← any_modifier year (capGet caps 40)
    match m?, m2? with
    | some m, some m2 =>
      return some ((m.withLocation (get_location (capGet caps 37))).withNEST
        (some [m2.withLocation (get_location (capGet caps 39))]))
    | _, _ => return none

/-- `location_parser.py::parse_location_string`.  `year` models the ambient
`datetime.today().year` baked into `ydate`; `Except.error ()` models an
uncaught `ValueError` (from `date(...)`/`time(...)`) or `AttributeError`.
`fromParent` mirrors `from_parent` (only one nesting level). -/
def parse_location_string (year : Int) (raw : String) (fromParent : Bool) :
    Except Unit (Option Item) := do
  let x := normalize raw
  match ← parseFlat year x with
  | some it => return some it
  | none =>
  if fromParent then return none
  else
  match ← simple_nest year x with
  | some it => return some it
  | none =>
  match ← family_1 year x with
  | some it => return some it
  | none =>
  match ← family_4 year x with
  | some it => return some it
  | none =>
  match ← family_2 year x with
  | some it => return some it
  | none =>
  match ← family_3 year x with
  | some it => return some it
  | none =>
  match ← family_5 year x with
  | some it => return some it
  | none =>
  match ← family_6 year x with
  | some it => return some it
  | none => return none

/-! ## Helper lemmas -/

theorem bind_ok_iff {α β : Type} (e : Except Unit α) (f : α → Except Unit β)
    (r : β) : (e >>= f) = .ok r ↔ ∃ a, e = .ok a ∧ f a = .ok r := by
  cases e <;> simp [Bind.bind, Except.bind]

theorem mapME_mem {α β : Type} (f : α → Except Unit β) (l : List α)
    (r : List β) (h : mapME f l = .ok r) :
    ∀ b ∈ r, ∃ a ∈ l, f a = .ok b := by
  induction l generalizing r with
  | nil =>
    simp only [mapME] at h
    cases h
    simp
  | cons a l ih =>
    simp only [mapME] at h
    rw [bind_ok_iff] at h
    obtain ⟨b, hb, h2⟩ := h
    rw [bind_ok_iff] at h2
    obtain ⟨r', hr', h3⟩ := h2
    have h4 : b :: r' = r := by
      simpa [pure, Except.pure] using h3
    subst h4
    intro x hx
    rcases List.mem_cons.mp hx with hx | hx
    · exact ⟨a, List.mem_cons_self _ _, hx ▸ hb⟩
    · obtain ⟨a', ha', hfa'⟩ := ih r' hr' x hx
      exact ⟨a', List.mem_cons_of_mem _ ha', hfa'⟩

theorem mapME_nil {α β : Type} (f : α → Except Unit β) :
    mapME f [] = .ok [] := rfl

@[simp] theorem Item.on_withOn (it : Item) (v : Option (List Int)) :
    (it.withOn v).on_ = v := by cases it; rfl

@[simp] theorem Item.location_withOn (it : Item) (v : Option (List Int)) :
    (it.withOn v).location = it.location := by cases it; rfl

@[simp] theorem Item.starts_from_withOn (it : Item) (v : Option (List Int)) :
    (it.withOn v).starts_from = it.starts_from := by cases it; rfl

@[simp] theorem Item.starts_at_withOn (it : Item) (v : Option (List Int)) :
    (it.withOn v).starts_at = it.starts_at := by cases it; rfl

@[simp] theorem Item.till_withOn (it : Item) (v : Option (List Int)) :
    (it.withOn v).till = it.till := by cases it; rfl

@[simp] theorem Item.on_weeks_withOn (it : Item) (v : Option (List Int)) :
    (it.withOn v).on_weeks = it.on_weeks := by cases it; rfl

@[simp] theorem Item.except_withOn (it : Item) (v : Option (List Int)) :
    (it.withOn v).except_ = it.except_ := by cases it; rfl

@[simp] theorem Item.NEST_withOn (it : Item) (v : Option (List Int)) :
    (it.withOn v).NEST = it.NEST := by cases it; rfl

@[simp] theorem Item.withOn_self (it : Item) : it.withOn it.on_ = it := by
  cases it; rfl

theorem convert_shape (event : CoreCourseEvent) (it : Item) :
    ∃ v, convert_weeks_on_to_only_on event it = it.withOn v := by
  obtain ⟨a, b, c, d, e, f, g, n⟩ := it
  rcases e with _ | weeks
  · rcases f with _ | l
    · exact ⟨none, rfl⟩
    · by_cases hl : l = []
      · subst hl; exact ⟨some [], rfl⟩
      · exact ⟨some (sortedSet l),
          by simp [convert_weeks_on_to_only_on, Item.on_weeks, Item.on_,
            Item.withOn, hl]⟩
  · by_cases hw : weeks = []
    · subst hw
      rcases f with _ | l
      · exact ⟨none, rfl⟩
      · by_cases hl : l = []
        · subst hl; exact ⟨some [], rfl⟩
        · exact ⟨some (sortedSet l),
            by simp [convert_weeks_on_to_only_on, Item.on_weeks, Item.on_,
              Item.withOn, hl]⟩
    · have hmap : weeks.map (fun w =>
          nearest_weekday event.starts event.weekday + 7 * (w - 1)) ≠ [] := by
        simp [List.map_eq_nil_iff, hw]
      rcases f with _ | l
      · exact ⟨some (sortedSet (weeks.map (fun w =>
            nearest_weekday event.starts event.weekday + 7 * (w - 1)))),
          by simp [convert_weeks_on_to_only_on, Item.on_weeks, Item.on_,
            Item.withOn, hw, hmap]⟩
      · by_cases hl : l = []
        · subst hl
          exact ⟨some (sortedSet (weeks.map (fun w =>
              nearest_weekday event.starts event.weekday + 7 * (w - 1)))),
            by simp [convert_weeks_on_to_only_on, Item.on_weeks, Item.on_,
              Item.withOn, hw, hmap]⟩
        · exact ⟨some (sortedSet (l ++ weeks.map (fun w =>
              nearest_weekday event.starts event.weekday + 7 * (w - 1)))),
            by simp [convert_weeks_on_to_only_on, Item.on_weeks, Item.on_,
              Item.withOn, hw, hl]⟩

theorem convert_NEST (event : CoreCourseEvent) (it : Item) :
    (convert_weeks_on_to_only_on event it).NEST = it.NEST := by
  obtain ⟨v, hv⟩ := convert_shape event it
  rw [hv, Item.NEST_withOn]
theorem sortedSet_sorted (l : List Int) : (sortedSet l).Sorted (· ≤ ·) :=
  List.sorted_insertionSort _ _

theorem sortedSet_nodup (l : List Int) : (sortedSet l).Nodup :=
  ((List.perm_insertionSort _ _).nodup_iff).mpr (List.nodup_dedup l)

theorem mem_sortedSet (l : List Int) (x : Int) : x ∈ sortedSet l ↔ x ∈ l := by
  unfold sortedSet
  rw [(List.perm_insertionSort _ _).mem_iff, List.mem_dedup]

theorem sortedSet_singleton (x : Int) : sortedSet [x] = [x] := by
  simp [sortedSet, List.insertionSort]

/-! ## C2 — week-to-date normalization -/

/-- C2 (amended): during materialization, week-to-date normalization anchors
at `range_start` (`event.starts`) — not at `starts_from` — computing, for an
`Item` with `on_weeks = [w]` and no `on`, exactly one date
`anchor(range_start, slot.weekday) + (w-1)*7`; when `on_weeks` and `on` are
both present and non-empty the result is their union, deduplicated and
sorted ascending; `sorted(set(·))` indeed sorts ascending without
duplicates and preserves membership; and `nearest_weekday` is the anchor
function (the first date on or after the start that falls on the given
weekday). -/
theorem convert_weeks_on_amended (event : CoreCourseEvent) :
    (∀ it w, it.on_weeks = some [w] → it.on_ = none →
      (convert_weeks_on_to_only_on event it).on_ =
        some [nearest_weekday event.starts event.weekday + 7 * (w - 1)])
    ∧ (∀ it weeks l, it.on_weeks = some weeks → weeks ≠ [] →
        it.on_ = some l → l ≠ [] →
        (convert_weeks_on_to_only_on event it).on_ =
          some (sortedSet (l ++ weeks.map (fun w =>
            nearest_weekday event.starts event.weekday + 7 * (w - 1)))))
    ∧ (∀ l, (sortedSet l).Sorted (· ≤ ·) ∧ (sortedSet l).Nodup
        ∧ ∀ x, x ∈ sortedSet l ↔ x ∈ l)
    ∧ (0 ≤ event.weekday → event.weekday < 7 →
        event.starts ≤ nearest_weekday event.starts event.weekday
        ∧ pyWeekday (nearest_weekday event.starts event.weekday) = event.weekday
        ∧ ∀ d, event.starts ≤ d → pyWeekday d = event.weekday →
            nearest_weekday event.starts event.weekday ≤ d) := by
  refine ⟨?_, ?_, ?_, ?_⟩
  · intro it w h1 h2
    obtain ⟨a, b, c, d, e, f, g, n⟩ := it
    simp only [Item.on_weeks] at h1
    simp only [Item.on_] at h2
    subst h1; subst h2
    simp [convert_weeks_on_to_only_on, Item.on_weeks, Item.on_, Item.withOn,
      sortedSet_singleton]
  · intro it weeks l h1 hw h2 hl
    obtain ⟨a, b, c, d, e, f, g, n⟩ := it
    simp only [Item.on_weeks] at h1
    simp only [Item.on_] at h2
    subst h1; subst h2
    simp [convert_weeks_on_to_only_on, Item.on_weeks, Item.on_, Item.withOn,
      hw, hl]
  · intro l
    exact ⟨sortedSet_sorted l, sortedSet_nodup l, mem_sortedSet l⟩
  · intro h0 h7
    unfold nearest_weekday pyWeekday
    refine ⟨by omega, by omega, ?_⟩
    intro d hd hwd
    omega

/-- C2 counterexample: with `starts_from = 2024-09-10` (a Tuesday),
`range_start = 2024-09-02` (a Monday), `weekday = Monday` and
`on_weeks = [1]`, materialization normalizes `on` to `[2024-09-02]` — the
anchor is computed from `range_start` — whereas the claim's formula
`anchor(starts_from, weekday) + 0*7 = 2024-09-16` differs. -/
theorem convert_weeks_on_counterexample :
    (generate_vevents
        { start_time := 540, end_time := 630, weekday := 0,
          starts := civilToDays 2024 9 2, ends := civilToDays 2024 12 9,
          location_item := some ⟨none, some (civilToDays 2024 9 10), none,
            none, some [1], none, none, none⟩ }).map
      (fun r => r.2.map Item.on_)
      = .ok (some (some [civilToDays 2024 9 2]))
    ∧ civilToDays 2024 9 2 ≠
        nearest_weekday (civilToDays 2024 9 10) 0 + 7 * (1 - 1) := by
  exact ⟨by rfl, by decide⟩

/-- Witness for `convert_weeks_on_amended` at a concrete input. -/
theorem convert_weeks_on_amended_witness :
    (convert_weeks_on_to_only_on
        { start_time := 540, end_time := 630, weekday := 0,
          starts := civilToDays 2024 9 2, ends := civilToDays 2024 12 9 }
        ⟨none, none, none, none, some [2], none, none, none⟩).on_ =
      some [nearest_weekday (civilToDays 2024 9 2) 0 + 7 * (2 - 1)] :=
  (convert_weeks_on_amended _).1 ⟨none, none, none, none, some [2], none,
    none, none⟩ 2 rfl rfl

@[simp] theorem Item.NEST_withNEST (it : Item) (v : Option (List Item)) :
    (it.withNEST v).NEST = v := by cases it; rfl

@[simp] theorem Item.withNEST_self (it : Item) : it.withNEST it.NEST = it := by
  cases it; rfl

theorem mapME_length {α β : Type} (f : α → Except Unit β) (l : List α)
    (r : List β) (h : mapME f l = .ok r) : r.length = l.length := by
  induction l generalizing r with
  | nil => simp only [mapME] at h; cases h; rfl
  | cons a l ih =>
    simp only [mapME] at h
    rw [bind_ok_iff] at h
    obtain ⟨b, _, h2⟩ := h
    rw [bind_ok_iff] at h2
    obtain ⟨r', hr', h3⟩ := h2
    have h4 : b :: r' = r := by simpa [pure, Except.pure] using h3
    subst h4
    simp [ih r' hr']

theorem replaceMD_ok (dt : DateTime) (o : Int) (d' : DateTime)
    (h : replaceMD dt o = .ok d') :
    d'.mins = dt.mins ∧ pyReplaceMD dt.date o = .ok d'.date := by
  unfold replaceMD at h
  rcases hp : pyReplaceMD dt.date o with e | z
  · rw [hp] at h; simp [Bind.bind, Except.bind] at h
  · rw [hp] at h
    simp only [bind_ok_iff] at h
    obtain ⟨a, ha, hb⟩ := h
    cases ha
    have : (⟨z, dt.mins⟩ : DateTime) = d' := by
      simpa [pure, Except.pure] using hb
    subst this
    exact ⟨rfl, rfl⟩

/-- `adjust_for_item` never touches the identity, recurrence or rdate
fields. -/
theorem adjust_preserves (item : Item) (dur : Int) (v : VEvent) :
    (adjust_for_item item dur v).sequence = v.sequence
    ∧ (adjust_for_item item dur v).uid_seq = v.uid_seq
    ∧ (adjust_for_item item dur v).rrule_until = v.rrule_until
    ∧ (adjust_for_item item dur v).rdate = v.rdate
    ∧ (adjust_for_item item dur v).exdate = v.exdate
    ∧ (adjust_for_item item dur v).recurrence_id = v.recurrence_id := by
  unfold adjust_for_item
  rcases item.location with _ | s <;> rcases item.starts_at with _ | sa <;>
    rcases item.till with _ | tl <;> simp <;> split <;> simp

/-- `adjust_for_item` keeps the minute-of-day parts unchanged unless the
nested item sets `starts_at`/`till`. -/
theorem adjust_mins (item : Item) (dur : Int) (v : VEvent)
    (h1 : item.starts_at = none) (h2 : item.till = none) :
    (adjust_for_item item dur v).dtstart = v.dtstart
    ∧ (adjust_for_item item dur v).dtend = v.dtend := by
  unfold adjust_for_item
  rw [h1, h2]
  rcases item.location with _ | s <;> simp <;> split <;> simp

theorem override_one_ok (base : VEvent) (dtstart dtend : DateTime)
    (dur : Int) (item : Item) (o : Int) (seq : Int) (v : VEvent)
    (h : override_one base dtstart dtend dur item o seq = .ok v) :
    v.sequence = some seq ∧ v.uid_seq = base.uid_seq
    ∧ v.rrule_until = none ∧ v.rdate = base.rdate := by
  unfold override_one at h
  rw [bind_ok_iff] at h
  obtain ⟨rid, _, h⟩ := h
  rw [bind_ok_iff] at h
  obtain ⟨d1, _, h⟩ := h
  rw [bind_ok_iff] at h
  obtain ⟨d2, _, h⟩ := h
  have hv : adjust_for_item item dur
      { base with recurrence_id := some rid, sequence := some seq,
                  rrule_until := none, dtstart := d1, dtend := d2 } = v := by
    simpa [pure, Except.pure] using h
  obtain ⟨hs, hu, hr, hd, _, _⟩ := adjust_preserves item dur
    { base with recurrence_id := some rid, sequence := some seq,
                rrule_until := none, dtstart := d1, dtend := d2 }
  rw [hv] at hs hu hr hd
  exact ⟨hs, hu, hr, hd⟩

theorem seqRange_succ (start : Int) (n : Nat) :
    seqRange start (n + 1) = some start :: seqRange (start + 1) n := by
  simp only [seqRange, List.range_succ_eq_map, List.map_cons, List.map_map]
  congr 1
  · simp
  apply List.map_congr_left
  intro j _
  simp only [Function.comp_apply, Option.some.injEq, Int.ofNat_eq_coe]
  push_cast
  omega

theorem seqRange_append (start : Int) (m n : Nat) :
    seqRange start (m + n) = seqRange start m ++ seqRange (start + m) n := by
  simp only [seqRange, List.range_add, List.map_append, List.map_map]
  congr 1
  apply List.map_congr_left
  intro j _
  simp only [Function.comp_apply, Option.some.injEq, Int.ofNat_eq_coe]
  push_cast
  omega

theorem overrides_for_dates_spec (event : CoreCourseEvent) (base : VEvent)
    (d1 d2 : DateTime) (dur : Int) (item : Item) :
    ∀ (dates : List Int) (seq : Int) (vs : List VEvent) (seq' : Int),
    overrides_for_dates event base d1 d2 dur item dates seq = .ok (vs, seq') →
    seq' = seq + vs.length
    ∧ vs.map VEvent.sequence = seqRange (seq + 1) vs.length
    ∧ ∀ v ∈ vs, v.uid_seq = base.uid_seq ∧ v.rrule_until = none
        ∧ v.rdate = base.rdate := by
  intro dates
  induction dates with
  | nil =>
    intro seq vs seq' h
    simp only [overrides_for_dates] at h
    cases h
    simp [seqRange]
  | cons o rest ih =>
    intro seq vs seq' h
    simp only [overrides_for_dates] at h
    split at h
    · exact ih seq vs seq' h
    · rw [bind_ok_iff] at h
      obtain ⟨v, hv, h⟩ := h
      rw [bind_ok_iff] at h
      obtain ⟨p, hrec, hpure⟩ := h
      obtain ⟨vs', seq''⟩ := p
      have hps : v :: vs' = vs ∧ seq'' = seq' := by
        simpa [pure, Except.pure, Prod.ext_iff] using hpure
      obtain ⟨hvs, hsq⟩ := hps
      subst hvs
      subst hsq
      obtain ⟨hlen, hmap, hmem⟩ := ih (seq + 1) vs' seq'' hrec
      obtain ⟨hseq, huid, hrr, hrd⟩ := override_one_ok base d1 d2 dur item o
        (seq + 1) v hv
      refine ⟨by simp only [List.length_cons]; push_cast; omega, ?_, ?_⟩
      · rw [List.map_cons, hseq, hmap, List.length_cons, seqRange_succ]
      · intro w hw
        rcases List.mem_cons.mp hw with hw | hw
        · subst hw; exact ⟨huid, hrr, hrd⟩
        · exact hmem w hw

theorem overrides_for_items_spec (event : CoreCourseEvent) (base : VEvent)
    (d1 d2 : DateTime) (dur : Int) :
    ∀ (items : List Item) (seq : Int) (vs : List VEvent) (seq' : Int),
    overrides_for_items event base d1 d2 dur items seq = .ok (vs, seq') →
    seq' = seq + vs.length
    ∧ vs.map VEvent.sequence = seqRange (seq + 1) vs.length
    ∧ ∀ v ∈ vs, v.uid_seq = base.uid_seq ∧ v.rrule_until = none
        ∧ v.rdate = base.rdate := by
  intro items
  induction items with
  | nil =>
    intro seq vs seq' h
    simp only [overrides_for_items] at h
    cases h
    simp [seqRange]
  | cons it rest ih =>
    intro seq vs seq' h
    simp only [overrides_for_items] at h
    rw [bind_ok_iff] at h
    obtain ⟨p1, h1, h⟩ := h
    obtain ⟨vs1, seq1⟩ := p1
    rw [bind_ok_iff] at h
    obtain ⟨p2, h2, hpure⟩ := h
    obtain ⟨vs2, seq2⟩ := p2
    have hps : vs1 ++ vs2 = vs ∧ seq2 = seq' := by
      simpa [pure, Except.pure, Prod.ext_iff] using hpure
    obtain ⟨hvs, hsq⟩ := hps
    subst hvs
    subst hsq
    obtain ⟨hlen1, hmap1, hmem1⟩ := overrides_for_dates_spec event base d1 d2
      dur it (it.on_.getD []) seq vs1 seq1 h1
    obtain ⟨hlen2, hmap2, hmem2⟩ := ih seq1 vs2 seq2 h2
    refine ⟨by simp only [List.length_append]; push_cast; omega, ?_, ?_⟩
    · rw [List.map_append, hmap1, hmap2, List.length_append, seqRange_append]
      congr 2
      omega
    · intro w hw
      rcases List.mem_append.mp hw with hw | hw
      · exact hmem1 w hw
      · exact hmem2 w hw

theorem nested_one_spec (event : CoreCourseEvent) (base : VEvent)
    (d1 d2 : DateTime) (dur : Int) (i : Nat) (item : Item) (v : VEvent)
    (h : nested_one event base d1 d2 dur i item = .ok (some v)) :
    v.uid_seq = some i
    ∧ ∀ dtv ∈ v.rdate.getD [], ∃ o, in_range event o
        ∧ pyReplaceMD d1.date o = .ok dtv.date := by
  unfold nested_one at h
  rw [bind_ok_iff] at h
  obtain ⟨rdates, hrd, h⟩ := h
  split at h
  · simp [pure, Except.pure] at h
  · split at h
    · simp [Bind.bind, Except.bind] at h
    · rename_i onl0 hne o0 rest heq
      rw [bind_ok_iff] at h
      obtain ⟨e1, he1, h⟩ := h
      rw [bind_ok_iff] at h
      obtain ⟨e2, he2, h⟩ := h
      have hv : adjust_for_item item dur
          { base with uid_seq := some i, rdate := some rdates,
                      dtstart := e1, dtend := e2 } = v := by
        simpa [pure, Except.pure] using h
      obtain ⟨_, hu, _, hr, _, _⟩ := adjust_preserves item dur
        { base with uid_seq := some i, rdate := some rdates,
                    dtstart := e1, dtend := e2 }
      rw [hv] at hu hr
      refine ⟨hu, ?_⟩
      intro dtv hdtv
      rw [hr] at hdtv
      simp only [Option.getD_some] at hdtv
      obtain ⟨o, ho, hfo⟩ := mapME_mem _ _ _ hrd dtv hdtv
      have hmem := List.mem_filter.mp ho
      refine ⟨o, by simpa [in_range] using of_decide_eq_true hmem.2, ?_⟩
      exact (replaceMD_ok d1 o dtv hfo).2

theorem nested_all_spec (event : CoreCourseEvent) (base : VEvent)
    (d1 d2 : DateTime) (dur : Int) :
    ∀ (items : List (Nat × Item)) (vs : List VEvent),
    nested_all event base d1 d2 dur items = .ok vs →
    ∀ v ∈ vs, v.uid_seq ≠ none
      ∧ ∀ dtv ∈ v.rdate.getD [], ∃ o, in_range event o
          ∧ pyReplaceMD d1.date o = .ok dtv.date := by
  intro items
  induction items with
  | nil =>
    intro vs h
    simp only [nested_all] at h
    cases h
    simp
  | cons p rest ih =>
    intro vs h
    obtain ⟨i, item⟩ := p
    simp only [nested_all] at h
    rw [bind_ok_iff] at h
    obtain ⟨v?, hv?, h⟩ := h
    rw [bind_ok_iff] at h
    obtain ⟨vs', hvs', hpure⟩ := h
    rcases v? with _ | v
    · have hveq : vs' = vs := by simpa [pure, Except.pure] using hpure
      subst hveq
      exact ih vs' hvs'
    · have : v :: vs' = vs := by simpa [pure, Except.pure] using hpure
      subst this
      intro w hw
      rcases List.mem_cons.mp hw with hw | hw
      · subst hw
        obtain ⟨hu, hrd⟩ := nested_one_spec event base d1 d2 dur i item w hv?
        exact ⟨by simp [hu], hrd⟩
      · exact ih vs' hvs' w hw

theorem seqRange_mem_ne_none (s : Int) (n : Nat) (x : Option Int)
    (hx : x ∈ seqRange s n) : x ≠ none := by
  simp only [seqRange, List.mem_map] at hx
  obtain ⟨j, _, hj⟩ := hx
  simp [← hj]

theorem finish_nest_spec (event : CoreCourseEvent) (li : Item) (vevent : VEvent)
    (d1 d2 : DateTime) (dur : Int) (vs : List VEvent) (t : Option Item)
    (h : finish_nest event li vevent d1 d2 dur = .ok (vs, t))
    (hu : vevent.uid_seq = none) (hsq : vevent.sequence = none) :
    t = some (li.withNEST (li.NEST.map (fun _ =>
        (li.NEST.getD []).map (convert_weeks_on_to_only_on event))))
    ∧ (∀ v ∈ vs, v.uid_seq = none → v.sequence = none → v = vevent)
    ∧ (vevent.rrule_until.isSome →
        ∃ ovs root, vs = ovs ++ [root] ∧ root = vevent
          ∧ ovs.map VEvent.sequence = seqRange 1 ovs.length)
    ∧ (vevent.rrule_until = none →
        ∃ rest, vs = vevent :: rest ∧ ∀ v ∈ rest, v.uid_seq ≠ none)
    ∧ (∀ P : DateTime → Prop,
        (∀ dtv ∈ vevent.rdate.getD [], P dtv) →
        (∀ (dtv : DateTime) (o : Int), in_range event o →
          pyReplaceMD d1.date o = .ok dtv.date → P dtv) →
        ∀ v ∈ vs, ∀ dtv ∈ v.rdate.getD [], P dtv) := by
  simp only [finish_nest] at h
  split at h
  · -- no nested items at all: a single root event
    have hps : [vevent] = vs ∧ some (li.withNEST (li.NEST.map (fun _ =>
        (li.NEST.getD []).map (convert_weeks_on_to_only_on event)))) = t := by
      simpa [pure, Except.pure, Prod.ext_iff] using h
    obtain ⟨hvs, ht⟩ := hps
    subst hvs
    refine ⟨ht.symm, ?_, ?_, ?_, ?_⟩
    · intro v hv _ _
      simpa using hv
    · intro _
      exact ⟨[], vevent, by simp, rfl, by simp [seqRange]⟩
    · intro _
      exact ⟨[], rfl, by simp⟩
    · intro P hP _ v hv
      have hveq : v = vevent := by simpa using hv
      subst hveq
      exact hP
  · rename_i hnempty
    split at h
    · -- weekly root: overrides first, then the root event
      rename_i hsome
      rw [bind_ok_iff] at h
      obtain ⟨p, hov, hpure⟩ := h
      obtain ⟨ovs, sq⟩ := p
      have hps : ovs ++ [vevent] = vs ∧ some (li.withNEST (li.NEST.map (fun _ =>
          (li.NEST.getD []).map (convert_weeks_on_to_only_on event)))) = t := by
        simpa [pure, Except.pure, Prod.ext_iff] using hpure
      obtain ⟨hvs, ht⟩ := hps
      subst hvs
      obtain ⟨hlen, hmap, hmem⟩ := overrides_for_items_spec event vevent d1 d2
        dur _ 0 ovs sq hov
      refine ⟨ht.symm, ?_, ?_, ?_, ?_⟩
      · intro v hv _ hseq
        rcases List.mem_append.mp hv with hv | hv
        · exfalso
          have hx : v.sequence ∈ ovs.map VEvent.sequence := List.mem_map_of_mem _ hv
          rw [hmap] at hx
          exact seqRange_mem_ne_none _ _ _ hx hseq
        · simpa using hv
      · intro _
        exact ⟨ovs, vevent, rfl, rfl, by simpa using hmap⟩
      · intro hnone
        rw [hnone] at hsome
        simp at hsome
      · intro P hP _ v hv
        rcases List.mem_append.mp hv with hv | hv
        · have hveq := (hmem v hv).2.2
          rw [hveq]
          exact hP
        · have hveq : v = vevent := by simpa using hv
          subst hveq
          exact hP
    · -- explicit-dates root: root first, then independent nested events
      rename_i hnotsome
      rw [bind_ok_iff] at h
      obtain ⟨nvs, hnv, hpure⟩ := h
      have hps : vevent :: nvs = vs ∧ some (li.withNEST (li.NEST.map (fun _ =>
          (li.NEST.getD []).map (convert_weeks_on_to_only_on event)))) = t := by
        simpa [pure, Except.pure, Prod.ext_iff] using hpure
      obtain ⟨hvs, ht⟩ := hps
      subst hvs
      have hnspec := nested_all_spec event vevent d1 d2 dur _ nvs hnv
      refine ⟨ht.symm, ?_, ?_, ?_, ?_⟩
      · intro v hv huid _
        rcases List.mem_cons.mp hv with hv | hv
        · exact hv
        · exact absurd huid (by simpa using (hnspec v hv).1)
      · intro hsome
        exact absurd hsome hnotsome
      · intro _
        exact ⟨nvs, rfl, fun v hv => (hnspec v hv).1⟩
      · intro P hP hnew v hv
        rcases List.mem_cons.mp hv with hv | hv
        · subst hv
          exact hP
        · intro dtv hdtv
          obtain ⟨o, ho, hrep⟩ := (hnspec v hv).2 dtv hdtv
          exact hnew dtv o ho hrep

theorem finish_nest_vb (event : CoreCourseEvent) (li : Item) (vevent vb : VEvent)
    (d1 d2 : DateTime) (dur : Int) (vs : List VEvent) (t : Option Item)
    (h : finish_nest event li vevent d1 d2 dur = .ok (vs, t))
    (hu : vb.uid_seq = none) (hsq : vb.sequence = none)
    (hf1 : vevent.uid_seq = vb.uid_seq) (hf2 : vevent.sequence = vb.sequence)
    (hf3 : vevent.rrule_until = vb.rrule_until) (hf4 : vevent.rdate = vb.rdate)
    (hf5 : vevent.dtstart = vb.dtstart) (hf6 : vevent.dtend = vb.dtend)
    (hf7 : vevent.location = vb.location) :
    t = some (li.withNEST (li.NEST.map (fun _ =>
        (li.NEST.getD []).map (convert_weeks_on_to_only_on event))))
    ∧ (∀ v ∈ vs, v.uid_seq = none → v.sequence = none →
        v.dtstart = vb.dtstart ∧ v.dtend = vb.dtend ∧ v.rdate = vb.rdate
          ∧ v.rrule_until = vb.rrule_until ∧ v.location = vb.location)
    ∧ (vb.rrule_until.isSome →
        ∃ ovs root, vs = ovs ++ [root] ∧ root.uid_seq = none
          ∧ root.sequence = none ∧ root.rrule_until = vb.rrule_until
          ∧ ovs.map VEvent.sequence = seqRange 1 ovs.length)
    ∧ (vb.rrule_until = none →
        ∃ root rest, vs = root :: rest ∧ root.uid_seq = none
          ∧ root.rdate = vb.rdate ∧ ∀ v ∈ rest, v.uid_seq ≠ none)
    ∧ (∀ P : DateTime → Prop,
        (∀ dtv ∈ vb.rdate.getD [], P dtv) →
        (∀ (dtv : DateTime) (o : Int), in_range event o →
          pyReplaceMD d1.date o = .ok dtv.date → P dtv) →
        ∀ v ∈ vs, ∀ dtv ∈ v.rdate.getD [], P dtv) := by
  obtain ⟨ht, hroot, hweek, hexp, hprov⟩ := finish_nest_spec event li vevent
    d1 d2 dur vs t h (hf1.trans hu) (hf2.trans hsq)
  refine ⟨ht, ?_, ?_, ?_, ?_⟩
  · intro v hv h1 h2
    have hveq := hroot v hv h1 h2
    subst hveq
    exact ⟨hf5, hf6, hf4, hf3, hf7⟩
  · intro hr
    obtain ⟨ovs, root, hvs, hroot', hmap⟩ := hweek (by rw [hf3]; exact hr)
    refine ⟨ovs, root, hvs, ?_, ?_, ?_, hmap⟩
    · rw [hroot']; exact hf1.trans hu
    · rw [hroot']; exact hf2.trans hsq
    · rw [hroot']; exact hf3
  · intro hr
    obtain ⟨rest, hvs, hrest⟩ := hexp (by rw [hf3]; exact hr)
    exact ⟨vevent, rest, hvs, hf1.trans hu, hf4, hrest⟩
  · intro P hP hnew
    exact hprov P (by rw [hf4]; exact hP) hnew

theorem finish_spec (event : CoreCourseEvent) (li : Item) (vb : VEvent)
    (d1 d2 : DateTime) (dur : Int) (vs : List VEvent) (t : Option Item)
    (h : finish_vevents event li vb d1 d2 dur = .ok (vs, t))
    (hu : vb.uid_seq = none) (hsq : vb.sequence = none) :
    t = some (li.withNEST (li.NEST.map (fun _ =>
        (li.NEST.getD []).map (convert_weeks_on_to_only_on event))))
    ∧ (∀ v ∈ vs, v.uid_seq = none → v.sequence = none →
        v.dtstart = vb.dtstart ∧ v.dtend = vb.dtend ∧ v.rdate = vb.rdate
          ∧ v.rrule_until = vb.rrule_until ∧ v.location = vb.location)
    ∧ (vb.rrule_until.isSome →
        ∃ ovs root, vs = ovs ++ [root] ∧ root.uid_seq = none
          ∧ root.sequence = none ∧ root.rrule_until = vb.rrule_until
          ∧ ovs.map VEvent.sequence = seqRange 1 ovs.length)
    ∧ (vb.rrule_until = none →
        ∃ root rest, vs = root :: rest ∧ root.uid_seq = none
          ∧ root.rdate = vb.rdate ∧ ∀ v ∈ rest, v.uid_seq ≠ none)
    ∧ (∀ P : DateTime → Prop,
        (∀ dtv ∈ vb.rdate.getD [], P dtv) →
        (∀ (dtv : DateTime) (o : Int), in_range event o →
          pyReplaceMD d1.date o = .ok dtv.date → P dtv) →
        ∀ v ∈ vs, ∀ dtv ∈ v.rdate.getD [], P dtv) := by
  simp only [finish_vevents] at h
  rcases hex : li.except_ with _ | exl
  · rw [hex] at h
    simp only [pure_bind] at h
    exact finish_nest_vb event li vb vb d1 d2 dur vs t h hu hsq rfl rfl rfl
      rfl rfl rfl rfl
  · rw [hex] at h
    simp only [pure_bind] at h
    by_cases hexl : exl = []
    · rw [if_pos hexl] at h
      exact finish_nest_vb event li vb vb d1 d2 dur vs t h hu hsq rfl rfl rfl
        rfl rfl rfl rfl
    · rw [if_neg hexl] at h
      rw [bind_ok_iff] at h
      obtain ⟨exdates, _, h⟩ := h
      exact finish_nest_vb event li { vb with exdate := some exdates } vb d1 d2
        dur vs t h hu hsq rfl rfl rfl rfl rfl rfl rfl

theorem option_map_getD {α : Type} (o : Option (List α)) (f : α → α) :
    o.map (fun _ => (o.getD []).map f) = o.map (fun l => l.map f) := by
  cases o <;> rfl

theorem generate_spec (event : CoreCourseEvent) (li : Item) (vs : List VEvent)
    (t : Option Item) (hli : event.location_item = some li)
    (h : generate_vevents event = .ok (vs, t)) :
    t = some (final_tree event li)
    ∧ (∀ v ∈ vs, v.uid_seq = none → v.sequence = none →
        v.dtstart.mins = eff_start_time event li
          ∧ v.dtend.mins = eff_end_time event li)
    ∧ ((convert_weeks_on_to_only_on event li).onTruthy = false →
        ∃ ovs root, vs = ovs ++ [root] ∧ root.uid_seq = none
          ∧ root.sequence = none ∧ root.rrule_until = some event.ends
          ∧ ovs.map VEvent.sequence = seqRange 1 ovs.length)
    ∧ ((convert_weeks_on_to_only_on event li).onTruthy = true →
        vs = [] ∨ ∃ root rest, vs = root :: rest ∧ root.uid_seq = none
          ∧ root.rdate.isSome ∧ ∀ v ∈ rest, v.uid_seq ≠ none)
    ∧ (∀ v ∈ vs, ∀ dtv ∈ v.rdate.getD [],
        rdate_provenance event (root_sow event li) dtv)
    ∧ (∀ onl, (convert_weeks_on_to_only_on event li).on_ = some onl →
        onl ≠ [] → onl.filter (fun o => decide (in_range event o)) = [] →
        vs = []) := by
  simp only [generate_vevents, hli] at h
  rcases hon : (convert_weeks_on_to_only_on event li).on_ with _ | onl <;>
    rw [hon] at h
  · -- weekly root
    obtain ⟨ht, hroot, hweek, _, hprov⟩ := finish_spec event
      (convert_weeks_on_to_only_on event li) _ _ _ _ vs t h rfl rfl
    have htruthy : (convert_weeks_on_to_only_on event li).onTruthy = false := by
      simp [Item.onTruthy, hon]
    refine ⟨?_, ?_, ?_, ?_, ?_, ?_⟩
    · rw [ht]
      unfold final_tree
      rw [convert_NEST, option_map_getD]
      have hab : aborts_early event li = false := by
        simp [aborts_early, hon]
      rw [hab]
      simp
    · intro v hv h1 h2
      obtain ⟨hd1, hd2, _, _, _⟩ := hroot v hv h1 h2
      rw [hd1, hd2]
      exact ⟨rfl, rfl⟩
    · intro _
      obtain ⟨ovs, root, hvs, hru, hrs, hrr, hmap⟩ := hweek (by simp)
      exact ⟨ovs, root, hvs, hru, hrs, by simpa using hrr, hmap⟩
    · intro habs
      rw [htruthy] at habs
      cases habs
    · intro v hv dtv hdtv
      refine hprov _ ?_ ?_ v hv dtv hdtv
      · intro dtv2 hdtv2
        simp at hdtv2
      · intro dtv2 o hino hrep
        exact ⟨o, _, hino, Or.inl rfl, hrep⟩
    · intro onl2 honl2 _ _
      exact absurd honl2 (by simp)
  · -- explicit-dates root
    by_cases hne : onl = []
    · subst hne
      dsimp only [] at h
      obtain ⟨ht, hroot, hweek, _, hprov⟩ := finish_spec event
        (convert_weeks_on_to_only_on event li) _ _ _ _ vs t h rfl rfl
      have htruthy : (convert_weeks_on_to_only_on event li).onTruthy = false := by
        simp [Item.onTruthy, hon]
      refine ⟨?_, ?_, ?_, ?_, ?_, ?_⟩
      · rw [ht]
        unfold final_tree
        rw [convert_NEST, option_map_getD]
        have hab : aborts_early event li = false := by
          simp [aborts_early, hon]
        rw [hab]
        simp
      · intro v hv h1 h2
        obtain ⟨hd1, hd2, _, _, _⟩ := hroot v hv h1 h2
        rw [hd1, hd2]
        exact ⟨rfl, rfl⟩
      · intro _
        obtain ⟨ovs, root, hvs, hru, hrs, hrr, hmap⟩ := hweek (by simp)
        exact ⟨ovs, root, hvs, hru, hrs, by simpa using hrr, hmap⟩
      · intro habs
        rw [htruthy] at habs
        cases habs
      · intro v hv dtv hdtv
        refine hprov _ ?_ ?_ v hv dtv hdtv
        · intro dtv2 hdtv2
          simp at hdtv2
        · intro dtv2 o hino hrep
          exact ⟨o, _, hino, Or.inl rfl, hrep⟩
      · intro onl2 honl2 hne2 _
        have heq : ([] : List Int) = onl2 := Option.some_inj.mp honl2
        exact absurd heq.symm hne2
    · dsimp only [] at h
      rw [dif_neg hne] at h
      rw [bind_ok_iff] at h
      obtain ⟨rdates, hrd, h⟩ := h
      have hlen := mapME_length _ _ _ hrd
      have htruthy : (convert_weeks_on_to_only_on event li).onTruthy = true := by
        simp [Item.onTruthy, hon, hne]
      by_cases hrdnil : rdates = []
      · subst hrdnil
        rw [if_pos rfl] at h
        have hps : ([] : List VEvent) = vs
            ∧ some (convert_weeks_on_to_only_on event li) = t := by
          simpa [pure, Except.pure, Prod.ext_iff] using h
        obtain ⟨hvs, ht⟩ := hps
        subst hvs
        have hfilnil : onl.filter (fun o => decide (in_range event o)) = [] := by
          have h0 := hlen
          simp only [List.length_nil] at h0
          exact List.eq_nil_of_length_eq_zero h0.symm
        refine ⟨?_, by simp, ?_, ?_, by simp, fun _ _ _ _ => rfl⟩
        · rw [← ht]
          unfold final_tree
          have hab : aborts_early event li = true := by
            simp [aborts_early, hon, hne, hfilnil]
          rw [hab]
          simp only [reduceIte]
          rw [← convert_NEST event li, Item.withNEST_self]
        · intro habs
          rw [htruthy] at habs
          cases habs
        · intro _
          exact Or.inl rfl
      · rw [if_neg hrdnil] at h
        rw [bind_ok_iff] at h
        obtain ⟨e1, he1, h⟩ := h
        rw [bind_ok_iff] at h
        obtain ⟨e2, he2, h⟩ := h
        obtain ⟨hm1, hp1⟩ := replaceMD_ok _ _ _ he1
        obtain ⟨hm2, hp2⟩ := replaceMD_ok _ _ _ he2
        obtain ⟨ht, hroot, _, hexp, hprov⟩ := finish_spec event
          (convert_weeks_on_to_only_on event li) _ _ _ _ vs t h rfl rfl
        have hfilne : onl.filter (fun o => decide (in_range event o)) ≠ [] := by
          intro hcon
          apply hrdnil
          apply List.eq_nil_of_length_eq_zero
          rw [hlen, hcon]
          rfl
        refine ⟨?_, ?_, ?_, ?_, ?_, ?_⟩
        · rw [ht]
          unfold final_tree
          rw [convert_NEST, option_map_getD]
          have hab : aborts_early event li = false := by
            simp only [aborts_early, hon]
            simp [hne, List.isEmpty_iff, hfilne]
          simp [hab]
        · intro v hv h1 h2
          obtain ⟨hd1, hd2, _, _, _⟩ := hroot v hv h1 h2
          rw [hd1, hd2]
          simp only []
          rw [hm1, hm2]
          exact ⟨rfl, rfl⟩
        · intro habs
          rw [htruthy] at habs
          cases habs
        · intro _
          obtain ⟨root, rest, hvs, hru, hrrd, hrest⟩ := hexp (by simp)
          refine Or.inr ⟨root, rest, hvs, hru, ?_, hrest⟩
          rw [hrrd]
          simp
        · intro v hv dtv hdtv
          refine hprov _ ?_ ?_ v hv dtv hdtv
          · intro dtv2 hdtv2
            simp only [Option.getD_some] at hdtv2
            obtain ⟨o, ho, hfo⟩ := mapME_mem _ _ _ hrd dtv2 hdtv2
            have hmem := List.mem_filter.mp ho
            exact ⟨o, _, of_decide_eq_true hmem.2, Or.inl rfl,
              (replaceMD_ok _ _ _ hfo).2⟩
          · intro dtv2 o hino hrep
            refine ⟨o, e1.date, hino, Or.inr ⟨onl.head hne, ?_⟩, hrep⟩
            exact hp1
        · intro onl2 honl2 _ hfil
          have heq : onl = onl2 := Option.some_inj.mp honl2
          subst heq
          exact absurd hfil hfilne

/-! ## C3 — `generate_vevents` and tree mutation -/

/-- C3 (amended): `generate_vevents` is not pure with respect to the
override tree — it normalizes it in place.  On every successful run the
final tree is `final_tree`: the root has been rewritten by
`convert_weeks_on_to_only_on` and, unless the run aborted early on an empty
filtered date list, every nested item likewise; normalization changes only
the `on` field — `location`, `starts_from`, `starts_at`, `till`,
`on_weeks`, `except_` and `NEST` of every item keep their values. -/
theorem generate_vevents_mutation (event : CoreCourseEvent) (li : Item)
    (vs : List VEvent) (t : Option Item)
    (h1 : event.location_item = some li)
    (h : generate_vevents event = .ok (vs, t)) :
    t = some (final_tree event li)
    ∧ ∀ it : Item,
        (convert_weeks_on_to_only_on event it).location = it.location
        ∧ (convert_weeks_on_to_only_on event it).starts_from = it.starts_from
        ∧ (convert_weeks_on_to_only_on event it).starts_at = it.starts_at
        ∧ (convert_weeks_on_to_only_on event it).till = it.till
        ∧ (convert_weeks_on_to_only_on event it).on_weeks = it.on_weeks
        ∧ (convert_weeks_on_to_only_on event it).except_ = it.except_
        ∧ (convert_weeks_on_to_only_on event it).NEST = it.NEST := by
  refine ⟨(generate_spec event li vs t h1 h).1, ?_⟩
  intro it
  obtain ⟨v, hv⟩ := convert_shape event it
  rw [hv]
  simp

/-- C3 counterexample: materializing a tree with `on_weeks = [2]` and no
`on` leaves the tree with `on = [2024-09-09]` — the `Item` passed in is
changed by the call. -/
theorem generate_vevents_mutation_counterexample :
    (generate_vevents evB).map (fun r => r.2.map Item.on_)
      = .ok (some (some [civilToDays 2024 9 9]))
    ∧ liB.on_ = none := by
  exact ⟨by rfl, by rfl⟩

/-- Witness for `generate_vevents_mutation` at a concrete input. -/
theorem generate_vevents_mutation_witness :
    (some liA : Option Item) = some (final_tree evA liA) :=
  (generate_vevents_mutation evA liA [vevA] (some liA) rfl rfl).1

/-! ## C4 — duration preservation -/

/-- C4: if the tree sets `starts_at` and not `till`, the root descriptor's
start time equals `starts_at` and its `end_time - start_time`, as a
time-of-day delta (modulo 24 h — the `.time()` extraction wraps at
midnight), equals the slot's `end_time - start_time`; if `till` is set the
end time equals `till` directly, overriding the duration-preserving
shift. -/
theorem duration_preservation (event : CoreCourseEvent) (li : Item) (sa : Int)
    (vs : List VEvent) (t : Option Item)
    (h1 : event.location_item = some li) (h2 : li.starts_at = some sa)
    (h : generate_vevents event = .ok (vs, t)) :
    ∀ v ∈ vs, v.uid_seq = none → v.sequence = none →
      v.dtstart.mins = sa
      ∧ (li.till = none →
          (v.dtend.mins - v.dtstart.mins) % 1440
            = (event.end_time - event.start_time) % 1440)
      ∧ (∀ tl, li.till = some tl → v.dtend.mins = tl) := by
  intro v hv hu hs
  obtain ⟨hst, hen⟩ := (generate_spec event li vs t h1 h).2.1 v hv hu hs
  have hst' : v.dtstart.mins = sa := by
    rw [hst]
    simp [eff_start_time, h2]
  refine ⟨hst', ?_, ?_⟩
  · intro htl
    rw [hst', hen]
    simp only [eff_end_time, htl, h2]
    omega
  · intro tl htl
    rw [hen]
    simp [eff_end_time, htl]

/-- Witness for `duration_preservation` at a concrete input. -/
theorem duration_preservation_witness : vevC.dtstart.mins = 600 :=
  (duration_preservation evC liC 600 [vevC] (some liC) rfl rfl rfl vevC
    (by simp) rfl rfl).1

/-! ## C5 — range filtering of explicit dates -/

/-- C5 (amended): every date in every emitted `RDATE` list is obtained from
an on-date `o` with `range_start ≤ o ≤ range_end` by
`replace(month=o.month, day=o.day)` on the root base datetime (or on its
`on[0]`-adapted variant) — the year comes from the base, not from `o`, so
the emitted date itself can fall outside the window when the window spans a
year boundary (see the counterexample); and if the root's filtered list is
empty, the result is the empty list. -/
theorem rdate_range_amended (event : CoreCourseEvent) (li : Item)
    (vs : List VEvent) (t : Option Item)
    (h1 : event.location_item = some li)
    (h : generate_vevents event = .ok (vs, t)) :
    (∀ v ∈ vs, ∀ dtv ∈ v.rdate.getD [],
      rdate_provenance event (root_sow event li) dtv)
    ∧ (∀ onl, (convert_weeks_on_to_only_on event li).on_ = some onl →
        onl ≠ [] → onl.filter (fun o => decide (in_range event o)) = [] →
        vs = []) := by
  obtain ⟨_, _, _, _, hprov, hempty⟩ := generate_spec event li vs t h1 h
  exact ⟨hprov, hempty⟩

/-- C5 counterexample: with the window 2024-06-03 … 2025-05-31 and
`on = [2025-03-01]` (inside the window), the emitted `RDATE` entry is
2024-03-01 — the base year 2024 is kept — which lies before
`range_start`. -/
theorem rdate_range_counterexample :
    (generate_vevents evD).map (fun r => r.1.map (fun v => v.rdate))
      = .ok [some [⟨civilToDays 2024 3 1, 540⟩]]
    ∧ civilToDays 2024 3 1 < evD.starts
    ∧ evD.starts ≤ civilToDays 2025 3 1 ∧ civilToDays 2025 3 1 ≤ evD.ends := by
  exact ⟨by rfl, by decide, by decide, by decide⟩

/-- Witness for `rdate_range_amended` at a concrete input. -/
theorem rdate_range_amended_witness :
    rdate_provenance evE (root_sow evE liE) ⟨civilToDays 2024 9 13, 540⟩ :=
  (rdate_range_amended evE liE [vevE] (some liE) rfl rfl).1 vevE (by simp)
    ⟨civilToDays 2024 9 13, 540⟩ (by simp [vevE])

/-! ## C8 — emission order and sequence numbers -/

/-- C8: within one materialization, when the root is weekly every override
descriptor precedes the root descriptor and the overrides carry sequence
numbers 1, 2, … strictly increasing in emission order (the root itself has
no sequence number and keeps the weekly rule); when the root is
explicit-dates, the root descriptor is emitted first and all following
descriptors are independent nested events with their own uid sequ./ -/
theorem emission_order (event : CoreCourseEvent) (li : Item)
    (vs : List VEvent) (t : Option Item)
    (h1 : event.location_item = some li)
    (h : generate_vevents event = .ok (vs, t)) :
    ((convert_weeks_on_to_only_on event li).onTruthy = false →
      vs.map VEvent.sequence = seqRange 1 (vs.length - 1) ++ [none]
      ∧ (vs.getLast?).map VEvent.rrule_until = some (some event.ends)
      ∧ (vs.getLast?).map VEvent.uid_seq = some none)
    ∧ ((convert_weeks_on_to_only_on event li).onTruthy = true →
      vs = [] ∨ ((vs.head?).map VEvent.uid_seq = some none
        ∧ (vs.head?).map (fun v => v.rdate.isSome) = some true
        ∧ vs.tail.all (fun v => v.uid_seq.isSome) = true)) := by
  obtain ⟨_, _, hweek, hexp, _, _⟩ := generate_spec event li vs t h1 h
  constructor
  · intro hfalse
    obtain ⟨ovs, root, hvs, hu, hs, hr, hmap⟩ := hweek hfalse
    subst hvs
    refine ⟨?_, ?_, ?_⟩
    · rw [List.map_append, hmap]
      simp [hs]
    · rw [List.getLast?_concat]
      simp [hr]
    · rw [List.getLast?_concat]
      simp [hu]
  · intro htrue
    rcases hexp htrue with hnil | ⟨root, rest, hvs, hu, hrd, hrest⟩
    · exact Or.inl hnil
    · subst hvs
      refine Or.inr ⟨by simp [hu], by simp [hrd], ?_⟩
      simp only [List.tail_cons, List.all_eq_true]
      intro v hv
      exact Option.isSome_iff_ne_none.mpr (hrest v hv)

/-- Witness for `emission_order` at a concrete input: a weekly root with
one nested single-date override emits the override (sequence 1) before the
root. -/
theorem emission_order_witness :
    ([ovF, rootF].map VEvent.sequence = seqRange 1 1 ++ [none]
      ∧ ([ovF, rootF].getLast?).map VEvent.rrule_until
          = some (some evF.ends)
      ∧ ([ovF, rootF].getLast?).map VEvent.uid_seq = some none) :=
  (emission_order evF liF [ovF, rootF] (some liF) rfl rfl).1 rfl

/-! ## C10 — explicit-dates root start date before filtering -/

/-- C10: the explicit-dates root descriptor's start date is taken from the
first element of the full normalized `on` list before range filtering:
with `on = [2024-08-30, 2024-09-13]` and window 2024-09-02 … 2024-12-09 the
descriptor's `dtstart` falls on 2024-08-30, before `range_start`, while its
`RDATE` list holds only the in-range 2024-09-13. -/
theorem rdate_dtstart_before_filtering :
    generate_vevents evG = .ok ([vevG], some liG)
    ∧ pyReplaceMD (root_sow evG liG) (civilToDays 2024 8 30)
        = .ok vevG.dtstart.date
    ∧ vevG.dtstart.date < evG.starts
    ∧ vevG.rdate = some [⟨civilToDays 2024 9 13, 540⟩]
    ∧ evG.starts ≤ civilToDays 2024 9 13
    ∧ civilToDays 2024 9 13 ≤ evG.ends := by
  refine ⟨by rfl, by rfl, by decide, by rfl, by decide, by decide⟩

/-! ## Parser helper lemmas -/

theorem obind_some_iff {α β : Type} (e : Option α) (f : α → Option β)
    (r : β) : (e >>= f) = some r ↔ ∃ a, e = some a ∧ f a = some r := by
  cases e <;> simp

theorem mapMO_mem {α β : Type} (f : α → Option β) (l : List α) (r : List β)
    (h : mapMO f l = some r) : ∀ b ∈ r, ∃ a ∈ l, f a = some b := by
  induction l generalizing r with
  | nil =>
    simp only [mapMO] at h
    cases h
    simp
  | cons a l ih =>
    simp only [mapMO] at h
    rw [obind_some_iff] at h
    obtain ⟨b, hb, h⟩ := h
    rw [obind_some_iff] at h
    obtain ⟨r', hr', h⟩ := h
    have h4 : b :: r' = r := by simpa using h
    subst h4
    intro x hx
    rcases List.mem_cons.mp hx with hx | hx
    · exact ⟨a, List.mem_cons_self _ _, hx ▸ hb⟩
    · obtain ⟨a', ha', hfa'⟩ := ih r' hr' x hx
      exact ⟨a', List.mem_cons_of_mem _ ha', hfa'⟩

theorem intRange_sorted (a b : Int) :
    List.Sorted (fun x y : Int => x ≤ y) (intRange a b) := by
  unfold intRange
  have h := List.pairwise_lt_range ((b + 1 - a).toNat)
  exact h.map _ (fun i j hij => by omega)

theorem mem_intRange (a b n : Int) : n ∈ intRange a b ↔ a ≤ n ∧ n ≤ b := by
  unfold intRange
  simp only [List.mem_map, List.mem_range]
  constructor
  · rintro ⟨j, hj, rfl⟩
    omega
  · rintro ⟨h1, h2⟩
    exact ⟨(n - a).toNat, by omega, by omega⟩

theorem expandEntry_sorted (p : List Char) (e : List Int)
    (h : expandEntry p = some e) :
    List.Sorted (fun x y : Int => x ≤ y) e := by
  unfold expandEntry at h
  split at h
  · simp only [Option.map_eq_some'] at h
    obtain ⟨n, _, hn⟩ := h
    subst hn
    simp
  · rw [obind_some_iff] at h
    obtain ⟨x, hx, h⟩ := h
    rw [obind_some_iff] at h
    obtain ⟨y, hy, h⟩ := h
    have hr : intRange x y = e := by simpa using h
    subst hr
    exact intRange_sorted x y
  · simp at h

theorem expandEntry_range (p u v : List Char) (a b : Int)
    (hsplit : splitOnChar '-' p = [u, v]) (ha : pyInt u = some a)
    (hb : pyInt v = some b) : expandEntry p = some (intRange a b) := by
  unfold expandEntry
  rw [hsplit]
  simp [ha, hb]

/-! ## C1 — the parser can raise on malformed dates -/

/-- C1 (amended): `parse_location_string` is not exception-free.  When the
normalized text is no simple location, fullmatches the modifier alternation,
and in particular fullmatches the `STARTS ON|STARTS FROM|FROM|С|…` pattern
with a day/month capture on which `date(year=…, month, day)` is invalid, the
`ValueError` escapes the parser (`Except.error`) instead of degrading to
`None`. -/
theorem parse_raises_amended (year : Int) (raw : String) (caps0 caps : Caps)
    (h1 : get_location (normalize raw) = none)
    (h2 : rxFull rxMod (normalize raw) = some caps0)
    (h3 : rxFull rxStartsFrom (normalize raw) = some caps)
    (h4 : buildYDate year (capGet caps 2) = .error ()) :
    parse_location_string year raw false = .error () := by
  have hsf : starts_from year (normalize raw) = .error () := by
    unfold starts_from
    rw [h3]
    dsimp only []
    rw [h4]
    rfl
  have hany : any_modifier year (normalize raw) = .error () := by
    simp only [any_modifier]
    rw [h2]
    dsimp only []
    rw [hsf]
    rfl
  have hflat : parseFlat year (normalize raw) = .error () := by
    simp only [parseFlat]
    rw [h1]
    dsimp only []
    rw [hany]
    rfl
  simp only [parse_location_string]
  rw [hflat]
  rfl

/-- C1 counterexample: the parser does not always degrade to `None` for
malformed input — on `STARTS FROM 31/02` (February 31st does not exist) the
date constructor's `ValueError` escapes, refuting "never throws for
malformed input". -/
theorem parse_never_raises_counterexample :
    parse_location_string 2024 "STARTS FROM 31/02" false = .error () := rfl

/-- Closed witness for `parse_raises_amended` at `STARTS FROM 31/02`. -/
theorem parse_raises_amended_witness :
    get_location (normalize "STARTS FROM 31/02") = none
      ∧ parse_location_string 2024 "STARTS FROM 31/02" false = .error () :=
  ⟨rfl, parse_raises_amended 2024 "STARTS FROM 31/02"
    [(0, "STARTS FROM 31/02".data), (2, "31/02".data)]
    [(0, "STARTS FROM 31/02".data), (2, "31/02".data)]
    rfl rfl rfl rfl⟩

/-! ## C9 — week lists -/

/-- C9 (amended): an `on_weeks` item produced by the `week` builder is the
flat concatenation, in textual order, of the expansions of the
comma-separated entries of the `weeks` capture; each single entry denotes
itself, each `N-M` entry expands to exactly the ascending run `N, …, M`,
and every per-entry expansion is ascending — but the overall list keeps the
textual entry order and is not re-sorted (see the counterexample). -/
theorem week_list_amended (y : List Char) (it : Item)
    (h : week y = .ok (some it)) :
    ∃ caps parts, rxFull rxWeekPat y = some caps
      ∧ mapMO expandEntry (splitOnChar ',' (capGet caps 3)) = some parts
      ∧ it = itemOnWeeks parts.flatten
      ∧ (∀ e ∈ parts, List.Sorted (fun x y : Int => x ≤ y) e)
      ∧ (∀ p ∈ splitOnChar ',' (capGet caps 3), ∀ u v a b,
          splitOnChar '-' p = [u, v] → pyInt u = some a → pyInt v = some b →
          expandEntry p = some (intRange a b)
            ∧ ∀ n : Int, n ∈ intRange a b ↔ a ≤ n ∧ n ≤ b) := by
  unfold week at h
  split at h
  · simp at h
  · rename_i caps hcaps
    split at h
    · rename_i l hl
      have hit : itemOnWeeks l = it := by simpa using h
      unfold weekExpand at hl
      rw [obind_some_iff] at hl
      obtain ⟨parts, hparts, hfl⟩ := hl
      have hfl2 : parts.flatten = l := by simpa using hfl
      refine ⟨caps, parts, hcaps, hparts, ?_, ?_, ?_⟩
      · rw [← hit, hfl2]
      · intro e he
        obtain ⟨p, _, hp⟩ := mapMO_mem _ _ _ hparts e he
        exact expandEntry_sorted p e hp
      · intro p _ u v a b hs ha hb
        exact ⟨expandEntry_range p u v a b hs ha hb,
          fun n => mem_intRange a b n⟩
    · simp at h

/-- C9 counterexample: `WEEK 3, 1 ONLY` parses to `on_weeks = [3, 1]`
which preserves the textual order and is not ascending. -/
theorem week_list_counterexample :
    parse_location_string 2024 "WEEK 3, 1 ONLY" false
        = .ok (some (itemOnWeeks [3, 1]))
      ∧ ¬ List.Sorted (fun x y : Int => x ≤ y) [(3 : Int), 1] :=
  ⟨rfl, by decide⟩

/-- Closed witness for `week_list_amended` at `WEEK 2-4 ONLY`. -/
theorem week_list_amended_witness :
    ∃ caps parts, rxFull rxWeekPat "WEEK 2-4 ONLY".data = some caps
      ∧ mapMO expandEntry (splitOnChar ',' (capGet caps 3)) = some parts
      ∧ itemOnWeeks [2, 3, 4] = itemOnWeeks parts.flatten
      ∧ (∀ e ∈ parts, List.Sorted (fun x y : Int => x ≤ y) e)
      ∧ (∀ p ∈ splitOnChar ',' (capGet caps 3), ∀ u v a b,
          splitOnChar '-' p = [u, v] → pyInt u = some a → pyInt v = some b →
          expandEntry p = some (intRange a b)
            ∧ ∀ n : Int, n ∈ intRange a b ↔ a ≤ n ∧ n ≤ b) :=
  week_list_amended "WEEK 2-4 ONLY".data (itemOnWeeks [2, 3, 4]) rfl

/-! ## C7 — combined modifiers merge with last-parsed-wins -/

theorem two_modifiers_ok (year : Int) (y : List Char) (it : Item)
    (h : two_modifiers year y = .ok (some it)) :
    ∃ caps a b, rxFull rxTwoMod y = some caps
      ∧ any_modifier year (capGet caps 12) = .ok (some a)
      ∧ any_modifier year (capGet caps 13) = .ok (some b)
      ∧ it = mergeItems a b := by
  unfold two_modifiers at h
  split at h
  · simp at h
  · rename_i caps hcaps
    rw [bind_ok_iff] at h
    obtain ⟨m1, hm1, h⟩ := h
    rw [bind_ok_iff] at h
    obtain ⟨m2, hm2, h⟩ := h
    rcases m1 with _ | a <;> rcases m2 with _ | b <;>
      simp [pure, Except.pure] at h
    exact ⟨caps, a, b, hcaps, hm1, hm2, h.symm⟩

theorem three_modifiers_ok (year : Int) (z : List Char) (it : Item)
    (h : three_modifiers year z = .ok (some it)) :
    ∃ caps a b c, rxFull rxThreeMod z = some caps
      ∧ any_modifier year (capGet caps 14) = .ok (some a)
      ∧ any_modifier year (capGet caps 15) = .ok (some b)
      ∧ any_modifier year (capGet caps 16) = .ok (some c)
      ∧ it = mergeItems (mergeItems a b) c := by
  unfold three_modifiers at h
  split at h
  · simp at h
  · rename_i caps hcaps
    rw [bind_ok_iff] at h
    obtain ⟨m1, hm1, h⟩ := h
    rw [bind_ok_iff] at h
    obtain ⟨m2, hm2, h⟩ := h
    rw [bind_ok_iff] at h
    obtain ⟨m3, hm3, h⟩ := h
    rcases m1 with _ | a <;> rcases m2 with _ | b <;> rcases m3 with _ | c <;>
      simp [pure, Except.pure] at h
    exact ⟨caps, a, b, c, hcaps, hm1, hm2, hm3, h.symm⟩

/-- C7: when the whole normalized text is exactly two (resp. three)
modifier atoms back to back, the result is a single item merging the atoms
parsed left to right with `mergeItems`, and the merge takes the union of
the set fields with the last-parsed (right) atom winning on collisions:
for every field, a field set on the right operand wins, a field unset on
the right keeps the left operand's value, and the merged field is unset iff
both operands leave it unset. -/
theorem modifier_merge (year : Int) (y z : List Char) (it2 it3 : Item)
    (h2 : two_modifiers year y = .ok (some it2))
    (h3 : three_modifiers year z = .ok (some it3)) :
    (∃ caps a b, rxFull rxTwoMod y = some caps
      ∧ any_modifier year (capGet caps 12) = .ok (some a)
      ∧ any_modifier year (capGet caps 13) = .ok (some b)
      ∧ it2 = mergeItems a b)
    ∧ (∃ caps a b c, rxFull rxThreeMod z = some caps
      ∧ any_modifier year (capGet caps 14) = .ok (some a)
      ∧ any_modifier year (capGet caps 15) = .ok (some b)
      ∧ any_modifier year (capGet caps 16) = .ok (some c)
      ∧ it3 = mergeItems (mergeItems a b) c)
    ∧ (∀ a b : Item,
        (∀ v, b.location = some v → (mergeItems a b).location = some v)
      ∧ (b.location = none → (mergeItems a b).location = a.location)
      ∧ ((mergeItems a b).location = none ↔
          b.location = none ∧ a.location = none)
      ∧ (∀ v, b.starts_from = some v → (mergeItems a b).starts_from = some v)
      ∧ (b.starts_from = none → (mergeItems a b).starts_from = a.starts_from)
      ∧ ((mergeItems a b).starts_from = none ↔
          b.starts_from = none ∧ a.starts_from = none)
      ∧ (∀ v, b.starts_at = some v → (mergeItems a b).starts_at = some v)
      ∧ (b.starts_at = none → (mergeItems a b).starts_at = a.starts_at)
      ∧ ((mergeItems a b).starts_at = none ↔
          b.starts_at = none ∧ a.starts_at = none)
      ∧ (∀ v, b.till = some v → (mergeItems a b).till = some v)
      ∧ (b.till = none → (mergeItems a b).till = a.till)
      ∧ ((mergeItems a b).till = none ↔ b.till = none ∧ a.till = none)
      ∧ (∀ v, b.on_weeks = some v → (mergeItems a b).on_weeks = some v)
      ∧ (b.on_weeks = none → (mergeItems a b).on_weeks = a.on_weeks)
      ∧ ((mergeItems a b).on_weeks = none ↔
          b.on_weeks = none ∧ a.on_weeks = none)
      ∧ (∀ v, b.on_ = some v → (mergeItems a b).on_ = some v)
      ∧ (b.on_ = none → (mergeItems a b).on_ = a.on_)
      ∧ ((mergeItems a b).on_ = none ↔ b.on_ = none ∧ a.on_ = none)
      ∧ (∀ v, b.except_ = some v → (mergeItems a b).except_ = some v)
      ∧ (b.except_ = none → (mergeItems a b).except_ = a.except_)
      ∧ ((mergeItems a b).except_ = none ↔
          b.except_ = none ∧ a.except_ = none)) := by
  refine ⟨two_modifiers_ok year y it2 h2, three_modifiers_ok year z it3 h3,
    ?_⟩
  intro a b
  obtain ⟨a1, a2, a3, a4, a5, a6, a7, a8⟩ := a
  obtain ⟨b1, b2, b3, b4, b5, b6, b7, b8⟩ := b
  cases b1 <;> cases b2 <;> cases b3 <;> cases b4 <;> cases b5 <;>
    cases b6 <;> cases b7 <;>
    simp [mergeItems, Item.location, Item.starts_from, Item.starts_at,
      Item.till, Item.on_weeks, Item.on_, Item.except_]

/-- Closed witness for `modifier_merge`: `STARTS AT 18:00 TILL 21:00` is a
merge of the two atoms. -/
theorem modifier_merge_witness :
    ∃ caps a b,
      rxFull rxTwoMod (normalize "STARTS AT 18:00 TILL 21:00") = some caps
      ∧ any_modifier 2024 (capGet caps 12) = .ok (some a)
      ∧ any_modifier 2024 (capGet caps 13) = .ok (some b)
      ∧ (⟨none, none, some 1080, some 1260, none, none, none, none⟩ : Item)
          = mergeItems a b :=
  (modifier_merge 2024 (normalize "STARTS AT 18:00 TILL 21:00")
    (normalize "ON 13/09 STARTS AT 18:00 TILL 21:00")
    ⟨none, none, some 1080, some 1260, none, none, none, none⟩
    ⟨none, none, some 1080, some 1260, none, some [19979], none, none⟩
    rfl rfl).1

/-! ## C6 — nesting depth is at most one -/

@[simp] theorem Item.NEST_withLocation (it : Item) (v : Option String) :
    (it.withLocation v).NEST = it.NEST := by cases it; rfl

@[simp] theorem Item.NEST_withStartsAt (it : Item) (v : Option Int) :
    (it.withStartsAt v).NEST = it.NEST := by cases it; rfl

@[simp] theorem Item.NEST_withTill (it : Item) (v : Option Int) :
    (it.withTill v).NEST = it.NEST := by cases it; rfl

theorem starts_from_NEST (year : Int) (y : List Char) (it : Item)
    (h : starts_from year y = .ok (some it)) : it.NEST = none := by
  unfold starts_from at h
  split at h
  · simp at h
  · rw [bind_ok_iff] at h
    obtain ⟨d, _, h⟩ := h
    have hit : itemStartsFrom d = it := by simpa [pure, Except.pure] using h
    rw [← hit]
    rfl

theorem starts_at_NEST (y : List Char) (it : Item)
    (h : starts_at y = .ok (some it)) : it.NEST = none := by
  unfold starts_at at h
  split at h
  · simp at h
  · rw [bind_ok_iff] at h
    obtain ⟨t, _, h⟩ := h
    have hit : itemStartsAt t = it := by simpa [pure, Except.pure] using h
    rw [← hit]
    rfl

theorem week_NEST (y : List Char) (it : Item)
    (h : week y = .ok (some it)) : it.NEST = none := by
  unfold week at h
  split at h
  · simp at h
  · split at h
    · rename_i l hl
      have hit : itemOnWeeks l = it := by simpa using h
      rw [← hit]
      rfl
    · simp at h

theorem on_NEST (year : Int) (y : List Char) (it : Item)
    (h : on_ year y = .ok (some it)) : it.NEST = none := by
  simp only [on_] at h
  split at h
  · simp at h
  · rw [bind_ok_iff] at h
    obtain ⟨dates, _, h⟩ := h
    have hit : itemOn dates = it := by simpa [pure, Except.pure] using h
    rw [← hit]
    rfl

theorem till_NEST (y : List Char) (it : Item)
    (h : till y = .ok (some it)) : it.NEST = none := by
  unfold till at h
  split at h
  · simp at h
  · rw [bind_ok_iff] at h
    obtain ⟨t, _, h⟩ := h
    have hit : itemTill t = it := by simpa [pure, Except.pure] using h
    rw [← hit]
    rfl

theorem except_NEST (year : Int) (y : List Char) (it : Item)
    (h : except_ year y = .ok (some it)) : it.NEST = none := by
  simp only [except_] at h
  split at h
  · simp at h
  · rw [bind_ok_iff] at h
    obtain ⟨dates, _, h⟩ := h
    have hit : itemExcept dates = it := by simpa [pure, Except.pure] using h
    rw [← hit]
    rfl

theorem any_modifier_NEST (year : Int) (y : List Char) (it : Item)
    (h : any_modifier year y = .ok (some it)) : it.NEST = none := by
  simp only [any_modifier] at h
  split at h
  · simp at h
  · rw [bind_ok_iff] at h
    obtain ⟨r1, h1, h⟩ := h
    rcases r1 with _ | it1
    · dsimp only [] at h
      rw [bind_ok_iff] at h
      obtain ⟨r2, h2, h⟩ := h
      rcases r2 with _ | it2
      · dsimp only [] at h
        rw [bind_ok_iff] at h
        obtain ⟨r3, h3, h⟩ := h
        rcases r3 with _ | it3
        · dsimp only [] at h
          rw [bind_ok_iff] at h
          obtain ⟨r4, h4, h⟩ := h
          rcases r4 with _ | it4
          · dsimp only [] at h
            rw [bind_ok_iff] at h
            obtain ⟨r5, h5, h⟩ := h
            rcases r5 with _ | it5
            · dsimp only [] at h
              rw [bind_ok_iff] at h
              obtain ⟨r6, h6, h⟩ := h
              rcases r6 with _ | it6
              · simp [pure, Except.pure] at h
              · have hit : it6 = it := by simpa [pure, Except.pure] using h
                exact hit ▸ except_NEST year y it6 h6
            · have hit : it5 = it := by simpa [pure, Except.pure] using h
              exact hit ▸ till_NEST y it5 h5
          · have hit : it4 = it := by simpa [pure, Except.pure] using h
            exact hit ▸ on_NEST year y it4 h4
        · have hit : it3 = it := by simpa [pure, Except.pure] using h
          exact hit ▸ week_NEST y it3 h3
      · have hit : it2 = it := by simpa [pure, Except.pure] using h
        exact hit ▸ starts_at_NEST y it2 h2
    · have hit : it1 = it := by simpa [pure, Except.pure] using h
      exact hit ▸ starts_from_NEST year y it1 h1

theorem mergeItems_NEST (a b : Item) (ha : a.NEST = none)
    (hb : b.NEST = none) : (mergeItems a b).NEST = none := by
  obtain ⟨a1, a2, a3, a4, a5, a6, a7, a8⟩ := a
  obtain ⟨b1, b2, b3, b4, b5, b6, b7, b8⟩ := b
  simp only [Item.NEST] at ha hb
  simp [mergeItems, Item.NEST, ha, hb]

theorem two_modifiers_NEST (year : Int) (y : List Char) (it : Item)
    (h : two_modifiers year y = .ok (some it)) : it.NEST = none := by
  obtain ⟨caps, a, b, _, ha, hb, hit⟩ := two_modifiers_ok year y it h
  rw [hit]
  exact mergeItems_NEST a b (any_modifier_NEST year _ a ha)
    (any_modifier_NEST year _ b hb)

theorem three_modifiers_NEST (year : Int) (z : List Char) (it : Item)
    (h : three_modifiers year z = .ok (some it)) : it.NEST = none := by
  obtain ⟨caps, a, b, c, _, ha, hb, hc, hit⟩ := three_modifiers_ok year z it h
  rw [hit]
  exact mergeItems_NEST _ c
    (mergeItems_NEST a b (any_modifier_NEST year _ a ha)
      (any_modifier_NEST year _ b hb))
    (any_modifier_NEST year _ c hc)

theorem loc_plus_any_NEST (year : Int) (x : List Char) (it : Item)
    (h : loc_plus_any year x = .ok (some it)) : it.NEST = none := by
  simp only [loc_plus_any] at h
  split at h
  · simp at h
  · rename_i caps _
    rw [bind_ok_iff] at h
    obtain ⟨r, hr, h⟩ := h
    rcases r with _ | it1
    · exact Except.noConfusion h
    · have hit : it1.withLocation (get_location (capGet caps 10)) = it := by
        simpa [pure, Except.pure] using h
      rw [← hit, Item.NEST_withLocation]
      exact any_modifier_NEST year _ it1 hr

theorem loc_plus_two_NEST (year : Int) (x : List Char) (it : Item)
    (h : loc_plus_two year x = .ok (some it)) : it.NEST = none := by
  simp only [loc_plus_two] at h
  split at h
  · simp at h
  · rename_i caps _
    rw [bind_ok_iff] at h
    obtain ⟨r, hr, h⟩ := h
    rcases r with _ | it1
    · exact Except.noConfusion h
    · have hit : it1.withLocation (get_location (capGet caps 10)) = it := by
        simpa [pure, Except.pure] using h
      rw [← hit, Item.NEST_withLocation]
      exact two_modifiers_NEST year _ it1 hr

theorem loc_plus_three_NEST (year : Int) (x : List Char) (it : Item)
    (h : loc_plus_three year x = .ok (some it)) : it.NEST = none := by
  simp only [loc_plus_three] at h
  split at h
  · simp at h
  · rename_i caps _
    rw [bind_ok_iff] at h
    obtain ⟨r, hr, h⟩ := h
    rcases r with _ | it1
    · exact Except.noConfusion h
    · have hit : it1.withLocation (get_location (capGet caps 10)) = it := by
        simpa [pure, Except.pure] using h
      rw [← hit, Item.NEST_withLocation]
      exact three_modifiers_NEST year _ it1 hr

theorem parseFlat_NEST (year : Int) (x : List Char) (it : Item)
    (h : parseFlat year x = .ok (some it)) : it.NEST = none := by
  simp only [parseFlat] at h
  rcases hg : get_location x with _ | l
  · rw [hg] at h
    dsimp only [] at h
    rw [bind_ok_iff] at h
    obtain ⟨r1, h1, h⟩ := h
    rcases r1 with _ | it1
    · dsimp only [] at h
      rw [bind_ok_iff] at h
      obtain ⟨r2, h2, h⟩ := h
      rcases r2 with _ | it2
      · dsimp only [] at h
        rw [bind_ok_iff] at h
        obtain ⟨r3, h3, h⟩ := h
        rcases r3 with _ | it3
        · dsimp only [] at h
          rw [bind_ok_iff] at h
          obtain ⟨r4, h4, h⟩ := h
          rcases r4 with _ | it4
          · dsimp only [] at h
            rw [bind_ok_iff] at h
            obtain ⟨r5, h5, h⟩ := h
            rcases r5 with _ | it5
            · dsimp only [] at h
              rw [bind_ok_iff] at h
              obtain ⟨r6, h6, h⟩ := h
              rcases r6 with _ | it6
              · simp [pure, Except.pure] at h
              · have hit : it6 = it := by simpa [pure, Except.pure] using h
                exact hit ▸ loc_plus_three_NEST year x it6 h6
            · have hit : it5 = it := by simpa [pure, Except.pure] using h
              exact hit ▸ three_modifiers_NEST year x it5 h5
          · have hit : it4 = it := by simpa [pure, Except.pure] using h
            exact hit ▸ loc_plus_two_NEST year x it4 h4
        · have hit : it3 = it := by simpa [pure, Except.pure] using h
          exact hit ▸ two_modifiers_NEST year x it3 h3
      · have hit : it2 = it := by simpa [pure, Except.pure] using h
        exact hit ▸ loc_plus_any_NEST year x it2 h2
    · have hit : it1 = it := by simpa [pure, Except.pure] using h
      exact hit ▸ any_modifier_NEST year x it1 h1
  · rw [hg] at h
    dsimp only [] at h
    have hit : itemLoc (some l) = it := by simpa [pure, Except.pure] using h
    rw [← hit]
    rfl

theorem parseNoNest_NEST (year : Int) (raw : String) (it : Item)
    (h : parseNoNest year raw = .ok (some it)) : it.NEST = none := by
  unfold parseNoNest at h
  exact parseFlat_NEST year (normalize raw) it h

theorem simple_nest_children (year : Int) (x : List Char) (it : Item)
    (h : simple_nest year x = .ok (some it)) :
    ∀ c ∈ it.NEST.getD [], c.NEST = none := by
  simp only [simple_nest] at h
  split at h
  · simp at h
  · rename_i caps _
    rw [bind_ok_iff] at h
    obtain ⟨rest, hrest, h⟩ := h
    rcases rest with _ | r
    · simp [pure, Except.pure] at h
    · have hit : (⟨get_location (capGet caps 10), none, none, none, none,
          none, none, some [r]⟩ : Item) = it := by
        simpa [pure, Except.pure] using h
      intro c hc
      rw [← hit] at hc
      simp only [Item.NEST, Option.getD_some, List.mem_singleton] at hc
      subst hc
      exact parseNoNest_NEST year _ c hrest

theorem family_1_children (year : Int) (x : List Char) (it : Item)
    (h : family_1 year x = .ok (some it)) :
    ∀ c ∈ it.NEST.getD [], c.NEST = none := by
  simp only [family_1] at h
  split at h
  · simp at h
  · rename_i caps _
    rw [bind_ok_iff] at h
    obtain ⟨mo, hm, h⟩ := h
    rw [bind_ok_iff] at h
    obtain ⟨ao, ha, h⟩ := h
    rcases mo with _ | m <;> rcases ao with _ | a <;>
      simp [pure, Except.pure] at h
    intro c hc
    rw [← h] at hc
    simp only [Item.NEST_withNEST, Option.getD_some, List.mem_singleton] at hc
    subst hc
    exact parseNoNest_NEST year _ c ha

theorem family_43_children (year : Int) (x : List Char) (it : Item)
    (h : family_43 year x = .ok (some it)) :
    ∀ c ∈ it.NEST.getD [], c.NEST = none := by
  simp only [family_43] at h
  split at h
  · simp at h
  · rename_i caps _
    rw [bind_ok_iff] at h
    obtain ⟨m1o, hm1, h⟩ := h
    rw [bind_ok_iff] at h
    obtain ⟨m2o, hm2, h⟩ := h
    rw [bind_ok_iff] at h
    obtain ⟨m3o, hm3, h⟩ := h
    rcases m1o with _ | m1 <;> rcases m2o with _ | m2 <;>
      rcases m3o with _ | m3 <;> simp [pure, Except.pure] at h
    intro c hc
    rw [← h] at hc
    simp only [Item.NEST_withNEST, Option.getD_some, List.mem_cons,
      List.not_mem_nil, or_false] at hc
    rcases hc with rfl | rfl
    · rw [Item.NEST_withLocation]
      exact any_modifier_NEST year _ m2 hm2
    · rw [Item.NEST_withLocation]
      exact any_modifier_NEST year _ m3 hm3

theorem family_4_children (year : Int) (x : List Char) (it : Item)
    (h : family_4 year x = .ok (some it)) :
    ∀ c ∈ it.NEST.getD [], c.NEST = none := by
  simp only [family_4] at h
  split at h
  · exact family_43_children year x it h
  · rename_i caps _
    rw [bind_ok_iff] at h
    obtain ⟨m1o, hm1, h⟩ := h
    rw [bind_ok_iff] at h
    obtain ⟨m2o, hm2, h⟩ := h
    rcases m1o with _ | m1 <;> rcases m2o with _ | m2 <;> dsimp only [] at h
    · exact family_43_children year x it h
    · exact family_43_children year x it h
    · exact family_43_children year x it h
    · have hit : (m1.withLocation (get_location (capGet caps 20))).withNEST
          (some [m2.withLocation (get_location (capGet caps 22))]) = it := by
        simpa [pure, Except.pure] using h
      intro c hc
      rw [← hit] at hc
      simp only [Item.NEST_withNEST, Option.getD_some,
        List.mem_singleton] at hc
      subst hc
      rw [Item.NEST_withLocation]
      exact any_modifier_NEST year _ m2 hm2

theorem family_2_children (year : Int) (x : List Char) (it : Item)
    (h : family_2 year x = .ok (some it)) :
    ∀ c ∈ it.NEST.getD [], c.NEST = none := by
  simp only [family_2] at h
  split at h
  · simp at h
  · rename_i caps _
    rw [bind_ok_iff] at h
    obtain ⟨mo, hm, h⟩ := h
    rw [bind_ok_iff] at h
    obtain ⟨ao, ha, h⟩ := h
    rw [bind_ok_iff] at h
    obtain ⟨co, hco, h⟩ := h
    rcases mo with _ | m <;> rcases ao with _ | a <;> rcases co with _ | cm <;>
      simp [pure, Except.pure] at h
    intro c hc
    rw [← h] at hc
    simp only [Item.NEST_withNEST, Option.getD_some, List.mem_singleton] at hc
    subst hc
    have haN : a.NEST = none := parseNoNest_NEST year _ a ha
    rcases hsa : cm.starts_at with _ | v <;> rcases ht : cm.till with _ | w <;>
      simp [haN]

theorem family_3_children (year : Int) (x : List Char) (it : Item)
    (h : family_3 year x = .ok (some it)) :
    ∀ c ∈ it.NEST.getD [], c.NEST = none := by
  simp only [family_3] at h
  split at h
  · simp at h
  · rename_i caps _
    rw [bind_ok_iff] at h
    obtain ⟨mo, hm, h⟩ := h
    rw [bind_ok_iff] at h
    obtain ⟨ao, ha, h⟩ := h
    rcases mo with _ | m <;> rcases ao with _ | a <;>
      simp [pure, Except.pure] at h
    intro c hc
    rw [← h] at hc
    simp only [Item.NEST, Option.getD_some, List.mem_cons,
      List.not_mem_nil, or_false] at hc
    rcases hc with rfl | rfl
    · rw [Item.NEST_withLocation]
      exact any_modifier_NEST year _ m hm
    · exact parseNoNest_NEST year _ _ ha

theorem family_5_children (year : Int) (x : List Char) (it : Item)
    (h : family_5 year x = .ok (some it)) :
    ∀ c ∈ it.NEST.getD [], c.NEST = none := by
  simp only [family_5] at h
  split at h
  · simp at h
  · rename_i caps _
    rw [bind_ok_iff] at h
    obtain ⟨m1o, hm1, h⟩ := h
    rw [bind_ok_iff] at h
    obtain ⟨m2o, hm2, h⟩ := h
    rcases m1o with _ | m1 <;> rcases m2o with _ | m2 <;>
      simp [pure, Except.pure] at h
    intro c hc
    rw [← h] at hc
    simp only [Item.NEST, Option.getD_some, List.mem_cons,
      List.not_mem_nil, or_false] at hc
    rcases hc with rfl | rfl
    · rw [Item.NEST_withLocation]
      exact any_modifier_NEST year _ m1 hm1
    · rw [Item.NEST_withLocation]
      exact any_modifier_NEST year _ m2 hm2

theorem family_6_children (year : Int) (x : List Char) (it : Item)
    (h : family_6 year x = .ok (some it)) :
    ∀ c ∈ it.NEST.getD [], c.NEST = none := by
  simp only [family_6] at h
  split at h
  · simp at h
  · rename_i caps _
    rw [bind_ok_iff] at h
    obtain ⟨mo, hm, h⟩ := h
    rw [bind_ok_iff] at h
    obtain ⟨m2o, hm2, h⟩ := h
    rcases mo with _ | m <;> rcases m2o with _ | m2 <;>
      simp [pure, Except.pure] at h
    intro c hc
    rw [← h] at hc
    simp only [Item.NEST_withNEST, Option.getD_some, List.mem_singleton] at hc
    subst hc
    rw [Item.NEST_withLocation]
    exact any_modifier_NEST year _ m2 hm2

/-- C6: on every text accepted by `parse_location_string` (top-level call,
`from_parent = False`) the nesting depth is at most one — every child item
in the result's `NEST` list has no `NEST` list of its own. -/
theorem nesting_depth_bound (year : Int) (raw : String) (it : Item)
    (h : parse_location_string year raw false = .ok (some it)) :
    ∀ c ∈ it.NEST.getD [], c.NEST = none := by
  simp only [parse_location_string] at h
  rw [bind_ok_iff] at h
  obtain ⟨r0, h0, h⟩ := h
  rcases r0 with _ | it0
  · dsimp only [] at h
    simp only [Bool.false_eq_true, if_false] at h
    rw [bind_ok_iff] at h
    obtain ⟨r1, h1, h⟩ := h
    rcases r1 with _ | it1
    · dsimp only [] at h
      rw [bind_ok_iff] at h
      obtain ⟨r2, h2, h⟩ := h
      rcases r2 with _ | it2
      · dsimp only [] at h
        rw [bind_ok_iff] at h
        obtain ⟨r3, h3, h⟩ := h
        rcases r3 with _ | it3
        · dsimp only [] at h
          rw [bind_ok_iff] at h
          obtain ⟨r4, h4, h⟩ := h
          rcases r4 with _ | it4
          · dsimp only [] at h
            rw [bind_ok_iff] at h
            obtain ⟨r5, h5, h⟩ := h
            rcases r5 with _ | it5
            · dsimp only [] at h
              rw [bind_ok_iff] at h
              obtain ⟨r6, h6, h⟩ := h
              rcases r6 with _ | it6
              · dsimp only [] at h
                rw [bind_ok_iff] at h
                obtain ⟨r7, h7, h⟩ := h
                rcases r7 with _ | it7
                · simp [pure, Except.pure] at h
                · have hit : it7 = it := by simpa [pure, Except.pure] using h
                  subst hit
                  exact family_6_children year _ it7 h7
              · have hit : it6 = it := by simpa [pure, Except.pure] using h
                subst hit
                exact family_5_children year _ it6 h6
            · have hit : it5 = it := by simpa [pure, Except.pure] using h
              subst hit
              exact family_3_children year _ it5 h5
          · have hit : it4 = it := by simpa [pure, Except.pure] using h
            subst hit
            exact family_2_children year _ it4 h4
        · have hit : it3 = it := by simpa [pure, Except.pure] using h
          subst hit
          exact family_4_children year _ it3 h3
      · have hit : it2 = it := by simpa [pure, Except.pure] using h
        subst hit
        exact family_1_children year _ it2 h2
    · have hit : it1 = it := by simpa [pure, Except.pure] using h
      subst hit
      exact simple_nest_children year _ it1 h1
  · have hit : it0 = it := by simpa [pure, Except.pure] using h
    subst hit
    have hn := parseFlat_NEST year (normalize raw) it0 h0
    intro c hc
    simp [hn] at hc

/-- Closed witness for `nesting_depth_bound`: the single child produced for
`317 (421 ON 11/10)` carries no `NEST` of its own. -/
theorem nesting_depth_bound_witness :
    (⟨some "421", none, none, none, none, some [civilToDays 2024 10 11], none,
        none⟩ : Item).NEST = none :=
  nesting_depth_bound 2024 "317 (421 ON 11/10)"
    ⟨some "317", none, none, none, none, none, none,
      some [⟨some "421", none, none, none, none,
        some [civilToDays 2024 10 11], none, none⟩]⟩ rfl
    ⟨some "421", none, none, none, none, some [civilToDays 2024 10 11], none,
      none⟩
    (by simp [Item.NEST])

/-! ## Validation of the embedding against the reference test suite

Each example below is an input/output pair of `tests/test_location_strings.py`
(times as minutes of the day, dates as day numbers with the test year 2024),
checked here by kernel evaluation of the embedded parser. -/

example : get_location "303".data = some "303" := rfl
example : parse_location_string 2024 "303" false = .ok (some (itemLoc (some "303"))) := rfl
example : parse_location_string 2024 "room 107" false = .ok (some (itemLoc (some "107"))) := rfl
example : parse_location_string 2024 "?" false = .ok (some (itemLoc (some "?"))) := rfl
example : parse_location_string 2024 "online" false = .ok (some (itemLoc (some "ONLINE"))) := rfl
example : parse_location_string 2024 "106/313/314" false = .ok (some (itemLoc (some "106/313/314"))) := rfl
example : parse_location_string 2024 "105/ (ONLINE)" false = .ok (some (itemLoc (some "105/ONLINE"))) := rfl
example : parse_location_string 2024 "STARTS ON 2/10" false = .ok (some (itemStartsFrom (civilToDays 2024 10 2))) := rfl
example : parse_location_string 2024 "STARTS AT 16.10" false = .ok (some (itemStartsAt 970)) := rfl
example : parse_location_string 2024 "WEEK 2-4 ONLY" false = .ok (some (itemOnWeeks [2, 3, 4])) := rfl
example : parse_location_string 2024 "room #107" false = .ok (some (itemLoc (some "107"))) := rfl
example : parse_location_string 2024 "ОНЛАЙН" false = .ok (some (itemLoc (some "ОНЛАЙН"))) := rfl
example : parse_location_string 2024 "ONLINE (TBA)" false = .ok (some (itemLoc (some "ONLINE (TBA)"))) := rfl
example : parse_location_string 2024 "304 Starts from 19/09" false = .ok (some ⟨some "304", some (civilToDays 2024 9 19), none, none, none, none, none, none⟩) := rfl
example : parse_location_string 2024 "313 (STARTS FROM 21/09)" false = .ok (some ⟨some "313", some (civilToDays 2024 9 21), none, none, none, none, none, none⟩) := rfl
example : parse_location_string 2024 "107 (STARTS AT 10.50)" false = .ok (some ⟨some "107", none, some 650, none, none, none, none, none⟩) := rfl
example : parse_location_string 2024 "105 (WEEK 2, 4 ONLY)" false = .ok (some ⟨some "105", none, none, none, some [2,4], none, none, none⟩) := rfl
example : parse_location_string 2024 "ONLY ON 13/09, 20/09" false = .ok (some (itemOn [civilToDays 2024 9 13, civilToDays 2024 9 20])) := rfl
example : parse_location_string 2024 "ON 22/01 29/01" false = .ok (some (itemOn [civilToDays 2024 1 22, civilToDays 2024 1 29])) := rfl
example : parse_location_string 2024 "ON 13.09 20.09" false = .ok (some (itemOn [civilToDays 2024 9 13, civilToDays 2024 9 20])) := rfl
example : parse_location_string 2024 "ONLINE ON 13/09" false = .ok (some ⟨some "ONLINE", none, none, none, none, some [civilToDays 2024 9 13], none, none⟩) := rfl
example : parse_location_string 2024 "(ONLY ON 10/10)" false = .ok (some (itemOn [civilToDays 2024 10 10])) := rfl
example : parse_location_string 2024 "ONLINE (only on 31/08 and 14/09)" false = .ok (some ⟨some "ONLINE", none, none, none, none, some [civilToDays 2024 8 31, civilToDays 2024 9 14], none, none⟩) := rfl
example : parse_location_string 2024 "TILL 18:00" false = .ok (some (itemTill 1080)) := rfl
example : parse_location_string 2024 "STARTS AT 18:00 TILL 21:00" false = .ok (some ⟨none, none, some 1080, some 1260, none, none, none, none⟩) := rfl
example : parse_location_string 2024 "TILL 21:00 STARTS AT 18:00" false = .ok (some ⟨none, none, some 1080, some 1260, none, none, none, none⟩) := rfl
example : parse_location_string 2024 "(STARTS AT 18:00) TILL 21:00" false = .ok (some ⟨none, none, some 1080, some 1260, none, none, none, none⟩) := rfl
example : parse_location_string 2024 "ON 13/09 STARTS AT 18:00" false = .ok (some ⟨none, none, some 1080, none, none, some [civilToDays 2024 9 13], none, none⟩) := rfl
example : parse_location_string 2024 "107 (TILL 21:00) STARTS AT 18:00" false = .ok (some ⟨some "107", none, some 1080, some 1260, none, none, none, none⟩) := rfl
example : parse_location_string 2024 "317 (421 ON 11/10)" false = .ok (some ⟨some "317", none, none, none, none, none, none, some [⟨some "421", none, none, none, none, some [civilToDays 2024 10 11], none, none⟩]⟩) := rfl
example : parse_location_string 2024 "105 (room #107 on 28/08)" false = .ok (some ⟨some "105", none, none, none, none, none, none, some [⟨some "107", none, none, none, none, some [civilToDays 2024 8 28], none, none⟩]⟩) := rfl
example : parse_location_string 2024 "313 (WEEK 1-3) / ONLINE" false = .ok (some ⟨some "313", none, none, none, some [1,2,3], none, none, some [itemLoc (some "ONLINE")]⟩) := rfl
example : parse_location_string 2024 "460 EXCEPT 28/11" false = .ok (some ⟨some "460", none, none, none, none, none, some [civilToDays 2024 11 28], none⟩) := rfl
example : parse_location_string 2024 "314 EXCEPT 30/01 06/02" false = .ok (some ⟨some "314", none, none, none, none, none, some [civilToDays 2024 1 30, civilToDays 2024 2 6], none⟩) := rfl
example : parse_location_string 2024 "ОНЛАЙН (TBA) НАЧАЛО В 18:30" false = .ok (some ⟨some "ОНЛАЙН (TBA)", none, some 1110, none, none, none, none, none⟩) := rfl
example : parse_location_string 2024 "ОНЛАЙН (С 25.09)" false = .ok (some ⟨some "ОНЛАЙН", some (civilToDays 2024 9 25), none, none, none, none, none, none⟩) := rfl
example : parse_location_string 2024 "EXCEPT 30/01, 06/02" false = .ok (some (itemExcept [civilToDays 2024 1 30, civilToDays 2024 2 6])) := rfl
example : parse_location_string 2024 "STARTS FROM 31/02" false = .error () := rfl
example : parse_location_string 2024 "ONLINE ON 13/09, 108 ON 01/11 (STARTS AT 9:00)" false = .ok (some ⟨some "ONLINE", none, some 540, none, none, some [civilToDays 2024 9 13], none, some [⟨some "108", none, some 540, none, none, some [civilToDays 2024 11 1], none, none⟩]⟩) := rfl
example : parse_location_string 2024 "314 (312 ON 12/09,19/09,26/09) 301 ON 03/10" false = .ok (some ⟨some "314", none, none, none, none, none, none, some [⟨some "312", none, none, none, none, some [civilToDays 2024 9 12, civilToDays 2024 9 19, civilToDays 2024 9 26], none, none⟩, ⟨some "301", none, none, none, none, some [civilToDays 2024 10 3], none, none⟩]⟩) := rfl
example : parse_location_string 2024 "107 (106 НА 16.09, 105 НА 07.10)" false = .ok (some ⟨some "107", none, none, none, none, none, none, some [⟨some "106", none, none, none, none, some [civilToDays 2024 9 16], none, none⟩, ⟨some "105", none, none, none, none, some [civilToDays 2024 10 7], none, none⟩]⟩) := rfl

end Parsers
